import Mathlib

/-!
Verification of the 2048-style grid engine of this repository.

The repository contains two variants of the game:
* a dense-matrix variant (`slideAndMergeRow`, `moveLeft`, `moveRight`,
  `moveUp`, `moveDown`, `canMove`, `addRandomTile`, and a controller with
  score, best score and a history stack), and
* a sparse tile-list variant (`slideRow`, `moveTiles`, `canMove`,
  `addRandomTile`, and a controller with a win threshold of 128).

Both are embedded below.  Grids are `List (List Nat)` with `0` for an empty
cell; the board is `SIZE × SIZE` with `SIZE = 4`.  JavaScript's
`Math.random()` choices are made explicit parameters (an index into the
list of empty cells, and a flag selecting value 4 over value 2).
-/

def SIZE : Nat := 4

abbrev Grid := List (List Nat)

/-- Cell access `grid[r][c]`; out-of-range reads default to `0` (they do not
occur on well-formed `SIZE × SIZE` boards). -/
def getCell (g : Grid) (r c : Nat) : Nat := (g.getD r []).getD c 0

/-- Cell update `grid[r][c] = v` (no-op out of range, which does not occur on
well-formed boards). -/
def setCell (g : Grid) (r c v : Nat) : Grid := g.set r ((g.getD r []).set c v)

/-- A board is a `SIZE × SIZE` matrix. -/
def wfGrid (g : Grid) : Prop := g.length = 4 ∧ ∀ row ∈ g, row.length = 4

instance (g : Grid) : Decidable (wfGrid g) := by unfold wfGrid; infer_instance

/-- The merge scan of `slideAndMergeRow` (source lines 46-55): walk the
compacted row head to tail; when two adjacent values are equal, emit their
doubling once, add it to the score, and skip both (`i++` inside the loop);
otherwise emit the value unchanged. -/
def mergeLine : List Nat → List Nat × Nat
  | [] => ([], 0)
  | [a] => ([a], 0)
  | a :: b :: t =>
    if a = b then
      let r := mergeLine t
      (a * 2 :: r.1, a * 2 + r.2)
    else
      let r := mergeLine (b :: t)
      (a :: r.1, r.2)

/-- `slideAndMergeRow` (source lines 42-58): drop the zeros, run the merge
scan, and pad with zeros up to `SIZE`. -/
def slideAndMergeRow (row : List Nat) : List Nat × Nat :=
  let filtered := row.filter (· ≠ 0)
  let m := mergeLine filtered
  (m.1 ++ List.replicate (SIZE - m.1.length) 0, m.2)

/-- Follows the spec's words: scan head-to-tail, merging each pair of equal
adjacent values into one cell holding their sum, and advance past both. -/
def specScan : List Nat → List Nat
  | [] => []
  | [a] => [a]
  | a :: b :: t => if a = b then (a + b) :: specScan t else a :: specScan (b :: t)

/-- Follows the spec's words: the gained score is the sum of the merged
values produced by the scan. -/
def specScore : List Nat → Nat
  | [] => 0
  | [_] => 0
  | a :: b :: t => if a = b then (a + b) + specScore t else specScore (b :: t)

/-- Follows the spec's words for `slideAndMergeLine`: drop all empty cells
compacting toward the head, merge equal adjacent pairs into their sum, and
pad the tail with empty cells to length `SIZE`. -/
def slideAndMergeLineSpec (row : List Nat) : List Nat × Nat :=
  let compacted := row.filter (· ≠ 0)
  (specScan compacted ++ List.replicate (SIZE - (specScan compacted).length) 0,
   specScore compacted)

structure MoveResult where
  grid : Grid
  moved : Bool
  score : Nat
  deriving DecidableEq

/-- The per-row change test of `moveLeft` (source line 65):
`newRow.some((v, i) => v !== row[i])`.  `newRow` always has length `SIZE`
for a well-formed input row, so the scan ranges over `0 ... SIZE-1`. -/
def rowChangedB (nu old : List Nat) : Bool :=
  (List.range SIZE).any fun i => decide (nu.getD i 0 ≠ old.getD i 0)

/-- `moveLeft` (source lines 60-70): slide every row, set `moved` when some
row changed, and total the per-row scores. -/
def moveLeft (g : Grid) : MoveResult :=
  { grid := g.map fun row => (slideAndMergeRow row).1
  , moved := g.any fun row => rowChangedB (slideAndMergeRow row).1 row
  , score := (g.map fun row => (slideAndMergeRow row).2).sum }

/-- `reverseRows` (source lines 38-40). -/
def reverseRows (g : Grid) : Grid := g.map List.reverse

/-- `transpose` (source lines 30-36): `res[r][c] = grid[c][r]` over the
`SIZE × SIZE` index space. -/
def transpose (g : Grid) : Grid :=
  (List.range SIZE).map fun r => (List.range SIZE).map fun c => getCell g c r

/-- `moveRight` (source lines 72-76). -/
def moveRight (g : Grid) : MoveResult :=
  let r := moveLeft (reverseRows g)
  { grid := reverseRows r.grid, moved := r.moved, score := r.score }

/-- `moveUp` (source lines 78-82). -/
def moveUp (g : Grid) : MoveResult :=
  let r := moveLeft (transpose g)
  { grid := transpose r.grid, moved := r.moved, score := r.score }

/-- `moveDown` (source lines 84-88). -/
def moveDown (g : Grid) : MoveResult :=
  let r := moveRight (transpose g)
  { grid := transpose r.grid, moved := r.moved, score := r.score }

inductive Direction where
  | left | right | up | down
  deriving DecidableEq

/-- Dispatch of the four directional moves (as wired in `onKey`). -/
def dmove : Direction → Grid → MoveResult
  | .left => moveLeft
  | .right => moveRight
  | .up => moveUp
  | .down => moveDown

/-- `canMove` (source lines 90-99): some cell is empty, or some cell equals
its right neighbour or its down neighbour. -/
def canMove (g : Grid) : Bool :=
  ((List.range SIZE).any fun r => (List.range SIZE).any fun c =>
      decide (getCell g r c = 0))
  || ((List.range SIZE).any fun r => (List.range SIZE).any fun c =>
      (decide (c < SIZE - 1) && decide (getCell g r (c + 1) = getCell g r c))
      || (decide (r < SIZE - 1) && decide (getCell g (r + 1) c = getCell g r c)))

/-- `addRandomTile` (source lines 17-28): enumerate the empty cells row-major;
if none, no-op; otherwise write 2 or 4 into one of them.  The random choice
`Math.floor(Math.random() * empties.length)` is modelled by `k % length`,
and the 10% choice of value 4 by the flag `four`. -/
def addRandomTile (g : Grid) (k : Nat) (four : Bool) : Grid :=
  let empties := ((List.range SIZE).map fun r =>
    (List.range SIZE).filterMap fun c =>
      if getCell g r c = 0 then some (r, c) else none).flatten
  match empties with
  | [] => g
  | _ =>
    let p := empties.getD (k % empties.length) (0, 0)
    setCell g p.1 p.2 (if four then 4 else 2)

/-- Total of all cell values of a board. -/
def gridSum (g : Grid) : Nat := (g.map List.sum).sum

/-- No two adjacent cells of the line hold equal nonzero values. -/
def noAdjNZ : List Nat → Bool
  | a :: b :: t => ((a != b) || (a == 0)) && noAdjNZ (b :: t)
  | _ => true

/-- No two adjacent values of the list are equal. -/
def noAdj : List Nat → Bool
  | a :: b :: t => (a != b) && noAdj (b :: t)
  | _ => true

section Induction

/-- Two-step list induction matching the recursion pattern of the merge
scan. -/
theorem twoStepInd {α : Type _} (P : List α → Prop) (h0 : P [])
    (h1 : ∀ a, P [a]) (h2 : ∀ a b l, P l → P (b :: l) → P (a :: b :: l)) :
    ∀ l, P l := by
  have aux : ∀ l, P l ∧ ∀ a, P (a :: l) := by
    intro l
    induction l with
    | nil => exact ⟨h0, h1⟩
    | cons x t ih => exact ⟨ih.2 x, fun a => h2 a x t ih.1 (ih.2 x)⟩
  exact fun l => (aux l).1

end Induction

theorem mergeLine_eq_spec (l : List Nat) :
    mergeLine l = (specScan l, specScore l) := by
  induction l using twoStepInd with
  | h0 => rfl
  | h1 a => rfl
  | h2 a b t ih ih2 =>
    by_cases h : a = b
    · subst h
      simp [mergeLine, specScan, specScore, ih]
      omega
    · simp [mergeLine, specScan, specScore, ih2, h]

theorem mergeLine_sum (l : List Nat) : (mergeLine l).1.sum = l.sum := by
  induction l using twoStepInd with
  | h0 => rfl
  | h1 a => rfl
  | h2 a b t ih ih2 =>
    by_cases h : a = b
    · subst h; simp [mergeLine, ih]; ring
    · simp [mergeLine, h, ih2]

theorem mergeLine_length_le (l : List Nat) : (mergeLine l).1.length ≤ l.length := by
  induction l using twoStepInd with
  | h0 => simp [mergeLine]
  | h1 a => simp [mergeLine]
  | h2 a b t ih ih2 =>
    by_cases h : a = b
    · simp only [mergeLine, h, if_true, List.length_cons]
      simp only [List.length_cons] at ih ih2
      omega
    · simp only [mergeLine, h, if_false, List.length_cons]
      simp only [List.length_cons] at ih ih2
      omega

theorem mergeLine_length_eq (l : List Nat)
    (h : (mergeLine l).1.length = l.length) : mergeLine l = (l, 0) := by
  induction l using twoStepInd with
  | h0 => rfl
  | h1 a => rfl
  | h2 a b t ih ih2 =>
    by_cases hab : a = b
    · exfalso
      have hle := mergeLine_length_le t
      simp only [mergeLine, hab, if_true] at h
      simp at h
      omega
    · simp only [mergeLine, hab, if_false] at h ⊢
      have : (mergeLine (b :: t)).1.length = (b :: t).length := by
        simpa using h
      rw [ih2 this]

theorem mergeLine_pos (l : List Nat) (h : ∀ x ∈ l, x ≠ 0) :
    ∀ y ∈ (mergeLine l).1, y ≠ 0 := by
  induction l using twoStepInd with
  | h0 => simp [mergeLine]
  | h1 a => simpa [mergeLine] using h
  | h2 a b t ih ih2 =>
    by_cases hab : a = b
    · simp only [mergeLine, hab, if_true]
      intro y hy
      rcases List.mem_cons.mp hy with h1 | h1
      · have : a ≠ 0 := h a (by simp)
        omega
      · exact ih (fun x hx => h x (by simp [hx])) y h1
    · simp only [mergeLine, hab, if_false]
      intro y hy
      rcases List.mem_cons.mp hy with h1 | h1
      · exact h1 ▸ h a (by simp)
      · exact ih2 (fun x hx => h x (by simp at hx; simp [hx])) y h1

theorem mergeLine_noAdj (l : List Nat) (h : noAdj l = true) :
    mergeLine l = (l, 0) := by
  induction l using twoStepInd with
  | h0 => rfl
  | h1 a => rfl
  | h2 a b t ih ih2 =>
    simp only [noAdj, Bool.and_eq_true, bne_iff_ne, ne_eq] at h
    simp only [mergeLine, h.1, if_false]
    rw [ih2 h.2]

theorem filter_ne_zero_sum (l : List Nat) : (l.filter (· ≠ 0)).sum = l.sum := by
  induction l with
  | nil => rfl
  | cons a t ih =>
    by_cases h : a = 0
    · subst h
      rw [List.filter_cons_of_neg (by simp), ih, List.sum_cons]
      omega
    · rw [List.filter_cons_of_pos (by simpa using h), List.sum_cons, List.sum_cons, ih]

theorem replicate_zero_sum (k : Nat) : (List.replicate k 0).sum = 0 := by
  induction k with
  | zero => rfl
  | succ n ih => simp [List.replicate_succ, ih]

theorem slideAndMergeRow_eq (row : List Nat) :
    slideAndMergeRow row
      = ((mergeLine (row.filter (· ≠ 0))).1
          ++ List.replicate (SIZE - (mergeLine (row.filter (· ≠ 0))).1.length) 0,
         (mergeLine (row.filter (· ≠ 0))).2) := rfl

theorem slideAndMergeRow_sum (row : List Nat) :
    ((slideAndMergeRow row).1).sum = row.sum := by
  show ((mergeLine (row.filter (· ≠ 0))).1
      ++ List.replicate (SIZE - (mergeLine (row.filter (· ≠ 0))).1.length) 0).sum
    = row.sum
  rw [List.sum_append, mergeLine_sum, filter_ne_zero_sum, replicate_zero_sum,
    Nat.add_zero]

theorem slideAndMergeRow_length (row : List Nat) (h : row.length ≤ 4) :
    ((slideAndMergeRow row).1).length = 4 := by
  have h1 : (row.filter (· ≠ 0)).length ≤ row.length := List.length_filter_le _ _
  have h2 := mergeLine_length_le (row.filter (· ≠ 0))
  simp only [slideAndMergeRow, List.length_append, List.length_replicate, SIZE]
  omega

/-- Claim C1: `slideAndMergeRow` compacts the nonzero values toward the head,
merges each equal adjacent pair into one doubled cell counted in the gained
score, never re-merges a merge result, and pads with zeros to length `SIZE`;
with the three concrete rows of the spec evaluated. -/
theorem claim1_slideAndMerge :
    (∀ row : List Nat, slideAndMergeRow row = slideAndMergeLineSpec row)
    ∧ slideAndMergeRow [2, 2, 4, 0] = ([4, 4, 0, 0], 4)
    ∧ slideAndMergeRow [2, 0, 2, 2] = ([4, 2, 0, 0], 4)
    ∧ slideAndMergeRow [4, 4, 4, 4] = ([8, 8, 0, 0], 16) := by
  refine ⟨fun row => ?_, by decide, by decide, by decide⟩
  simp [slideAndMergeRow, slideAndMergeLineSpec, mergeLine_eq_spec]

/-- Claim C4 fails on the code: a merge leaves the line total unchanged, so
the total after the call is not the total before plus the gained score. -/
theorem claim4_counterexample :
    ¬ ((slideAndMergeRow [2, 2, 0, 0]).1.sum
        = List.sum [2, 2, 0, 0] + (slideAndMergeRow [2, 2, 0, 0]).2) := by
  decide

/-- Claim C4 amended: for every line, the total of all cell values after
`slideAndMergeRow` equals the total before the call; the merged values are
accumulated in the gained score but do not change the board total. -/
theorem claim4_amended (row : List Nat) :
    ((slideAndMergeRow row).1).sum = row.sum :=
  slideAndMergeRow_sum row

/-- Claim C3 fails on the code: a first left move can create a new adjacent
equal pair that a second left move merges, so `moveLeft` is not idempotent. -/
theorem claim3_counterexample :
    (moveLeft (moveLeft [[2,2,4,0],[0,0,0,0],[0,0,0,0],[0,0,0,0]]).grid).grid
      ≠ (moveLeft [[2,2,4,0],[0,0,0,0],[0,0,0,0],[0,0,0,0]]).grid
    ∧ (moveLeft (moveLeft [[2,2,4,0],[0,0,0,0],[0,0,0,0],[0,0,0,0]]).grid).moved
      = true := by
  decide

theorem noAdjNZ_append_zeros (vs : List Nat) (k : Nat)
    (hv : ∀ x ∈ vs, x ≠ 0)
    (h : noAdjNZ (vs ++ List.replicate k 0) = true) : noAdj vs = true := by
  induction vs using twoStepInd with
  | h0 => rfl
  | h1 a => rfl
  | h2 a b t ih ih2 =>
    simp only [List.cons_append, noAdjNZ, Bool.and_eq_true, Bool.or_eq_true,
      bne_iff_ne, ne_eq, beq_iff_eq] at h
    have ha : a ≠ 0 := hv a (by simp)
    have hab : a ≠ b := by rcases h.1 with h1 | h1 <;> omega
    simp only [noAdj, Bool.and_eq_true, bne_iff_ne, ne_eq]
    refine ⟨hab, ih2 (fun x hx => hv x (by simp at hx; simp [hx])) ?_⟩
    exact h.2

theorem filter_replicate_zero (k : Nat) :
    (List.replicate k 0).filter (· ≠ 0) = ([] : List Nat) := by
  induction k with
  | zero => rfl
  | succ n ih => simp [List.replicate_succ, List.filter_cons, ih]

theorem slideAndMergeRow_of_compact (vs : List Nat) (k : Nat)
    (hv : ∀ x ∈ vs, x ≠ 0) (hnadj : noAdj vs = true) :
    slideAndMergeRow (vs ++ List.replicate k 0)
      = (vs ++ List.replicate (SIZE - vs.length) 0, 0) := by
  have hfil : (vs ++ List.replicate k 0).filter (· ≠ 0) = vs := by
    rw [List.filter_append, filter_replicate_zero, List.append_nil]
    exact List.filter_eq_self.mpr (fun a ha => by simpa using hv a ha)
  rw [slideAndMergeRow_eq, hfil, mergeLine_noAdj vs hnadj]

theorem slideAndMergeRow_fix (row : List Nat)
    (hna : noAdjNZ ((slideAndMergeRow row).1) = true) :
    slideAndMergeRow ((slideAndMergeRow row).1) = ((slideAndMergeRow row).1, 0) := by
  have hvfil : ∀ x ∈ row.filter (· ≠ 0), x ≠ 0 := by
    intro x hx
    simpa using (List.mem_filter.mp hx).2
  set vs := (mergeLine (row.filter (· ≠ 0))).1 with hvs
  have hv : ∀ x ∈ vs, x ≠ 0 := mergeLine_pos _ hvfil
  have hout : (slideAndMergeRow row).1 = vs ++ List.replicate (SIZE - vs.length) 0 := by
    simp [slideAndMergeRow, hvs]
  have hnadj : noAdj vs = true := by
    apply noAdjNZ_append_zeros vs (SIZE - vs.length) hv
    rw [← hout]; exact hna
  rw [hout, slideAndMergeRow_of_compact vs (SIZE - vs.length) hv hnadj]

theorem rowChangedB_self (a : List Nat) : rowChangedB a a = false := by
  simp [rowChangedB]

/-- Claim C3 amended: when the grid produced by `moveLeft` contains no row
with two adjacent equal nonzero cells, a repeated `moveLeft` leaves the grid
unchanged and reports `moved = false`; in general a first move can create a
new adjacent equal pair that a second move merges. -/
theorem claim3_amended (B : Grid) (hwf : wfGrid B)
    (h : ∀ row ∈ (moveLeft B).grid, noAdjNZ row = true) :
    (moveLeft (moveLeft B).grid).grid = (moveLeft B).grid
    ∧ (moveLeft (moveLeft B).grid).moved = false := by
  have hfix : ∀ row ∈ (moveLeft B).grid, slideAndMergeRow row = (row, 0) := by
    intro row hr
    simp only [moveLeft, List.mem_map] at hr
    obtain ⟨orig, horig, hrow⟩ := hr
    have hna : noAdjNZ row = true := h row (by
      simp only [moveLeft, List.mem_map]
      exact ⟨orig, horig, hrow⟩)
    rw [← hrow]
    exact slideAndMergeRow_fix orig (by rw [hrow]; exact hna)
  constructor
  · show ((moveLeft B).grid).map (fun row => (slideAndMergeRow row).1)
      = (moveLeft B).grid
    have hcong : ((moveLeft B).grid).map (fun row => (slideAndMergeRow row).1)
        = ((moveLeft B).grid).map id :=
      List.map_congr_left (fun row hr => by rw [hfix row hr]; rfl)
    rw [hcong, List.map_id]
  · show ((moveLeft B).grid).any
      (fun row => rowChangedB (slideAndMergeRow row).1 row) = false
    rw [List.any_eq_false]
    intro row hr
    rw [hfix row hr]
    simp [rowChangedB_self]

/-- Witness for the amended claim C3 at a concrete settled board. -/
theorem claim3_amended_witness :
    (moveLeft (moveLeft [[2,4,2,4],[0,0,0,0],[0,0,0,0],[0,0,0,0]]).grid).grid
      = (moveLeft [[2,4,2,4],[0,0,0,0],[0,0,0,0],[0,0,0,0]]).grid
    ∧ (moveLeft (moveLeft [[2,4,2,4],[0,0,0,0],[0,0,0,0],[0,0,0,0]]).grid).moved
      = false :=
  claim3_amended [[2,4,2,4],[0,0,0,0],[0,0,0,0],[0,0,0,0]]
    (by decide) (by decide)

section Toolkit

theorem list4_cases {α : Type _} (l : List α) (h : l.length = 4) :
    ∃ a b c d, l = [a, b, c, d] := by
  rcases l with _ | ⟨a, _ | ⟨b, _ | ⟨c, _ | ⟨d, _ | ⟨e, t⟩⟩⟩⟩⟩ <;> simp_all

theorem getD_map_lt {α β : Type _} (f : α → β) (l : List α) (r : Nat) (d : β)
    (dd : α) (h : r < l.length) : (l.map f).getD r d = f (l.getD r dd) := by
  rw [List.getD_eq_getElem _ _ (by simpa using h), List.getD_eq_getElem _ _ h]
  simp

theorem getD_range_lt (n r : Nat) (h : r < n) : (List.range n).getD r 0 = r := by
  rw [List.getD_eq_getElem _ _ (by simpa using h)]
  simp

theorem exists_getD4 {α : Type _} (d : α) (l : List α) (h : l.length = 4)
    (P : α → Prop) : (∃ x ∈ l, P x) ↔ ∃ r, r < 4 ∧ P (l.getD r d) := by
  obtain ⟨a, b, c, e, rfl⟩ := list4_cases l h
  constructor
  · rintro ⟨x, hx, hp⟩
    simp only [List.mem_cons, List.not_mem_nil, or_false] at hx
    rcases hx with rfl | rfl | rfl | rfl
    · exact ⟨0, by omega, hp⟩
    · exact ⟨1, by omega, hp⟩
    · exact ⟨2, by omega, hp⟩
    · exact ⟨3, by omega, hp⟩
  · rintro ⟨r, hr, hp⟩
    interval_cases r
    · exact ⟨a, by simp, hp⟩
    · exact ⟨b, by simp, hp⟩
    · exact ⟨c, by simp, hp⟩
    · exact ⟨e, by simp, hp⟩

theorem getD_reverse4 {α : Type _} (d : α) (l : List α) (h : l.length = 4)
    (c : Nat) (hc : c < 4) : l.reverse.getD c d = l.getD (3 - c) d := by
  obtain ⟨a, b, c', e, rfl⟩ := list4_cases l h
  interval_cases c <;> rfl

theorem exists_lt4_flip (P : Nat → Prop) :
    (∃ c, c < 4 ∧ P (3 - c)) ↔ ∃ c, c < 4 ∧ P c := by
  constructor
  · rintro ⟨c, hc, hp⟩
    exact ⟨3 - c, by omega, hp⟩
  · rintro ⟨c, hc, hp⟩
    refine ⟨3 - c, by omega, ?_⟩
    have h33 : 3 - (3 - c) = c := by omega
    rw [h33]
    exact hp

theorem wf_row_len (g : Grid) (hwf : wfGrid g) (r : Nat) (hr : r < 4) :
    (g.getD r []).length = 4 := by
  have hlen : r < g.length := by rw [hwf.1]; exact hr
  rw [List.getD_eq_getElem _ _ hlen]
  exact hwf.2 _ (List.getElem_mem _)

theorem wf_transpose (g : Grid) : wfGrid (transpose g) := by
  constructor
  · simp [transpose, SIZE]
  · intro row hrow
    simp only [transpose, List.mem_map, List.mem_range] at hrow
    obtain ⟨r, _, rfl⟩ := hrow
    simp [SIZE]

theorem wf_reverseRows (g : Grid) (hwf : wfGrid g) : wfGrid (reverseRows g) := by
  constructor
  · simpa [reverseRows] using hwf.1
  · intro row hrow
    simp only [reverseRows, List.mem_map] at hrow
    obtain ⟨row₀, h₀, rfl⟩ := hrow
    simpa using hwf.2 row₀ h₀

theorem wf_moveLeft (g : Grid) (hwf : wfGrid g) : wfGrid (moveLeft g).grid := by
  constructor
  · simpa [moveLeft] using hwf.1
  · intro row hrow
    simp only [moveLeft, List.mem_map] at hrow
    obtain ⟨row₀, h₀, rfl⟩ := hrow
    exact slideAndMergeRow_length row₀ (Nat.le_of_eq (hwf.2 row₀ h₀))

theorem wf_moveRight (g : Grid) (hwf : wfGrid g) : wfGrid (moveRight g).grid :=
  wf_reverseRows _ (wf_moveLeft _ (wf_reverseRows _ hwf))

theorem getCell_transpose (g : Grid) (r c : Nat) (hr : r < 4) (hc : c < 4) :
    getCell (transpose g) r c = getCell g c r := by
  show (((List.range SIZE).map
      fun r' => (List.range SIZE).map fun c' => getCell g c' r').getD r []).getD c 0
    = getCell g c r
  rw [getD_map_lt _ _ r [] 0 (by simpa [SIZE] using hr)]
  rw [getD_map_lt _ _ c 0 0 (by simpa [SIZE] using hc)]
  rw [getD_range_lt _ r (by simpa [SIZE] using hr),
    getD_range_lt _ c (by simpa [SIZE] using hc)]

theorem getCell_reverseRows (g : Grid) (hwf : wfGrid g) (r c : Nat)
    (hr : r < 4) (hc : c < 4) :
    getCell (reverseRows g) r c = getCell g r (3 - c) := by
  show ((g.map List.reverse).getD r []).getD c 0 = (g.getD r []).getD (3 - c) 0
  rw [getD_map_lt _ g r [] [] (by have := hwf.1; omega)]
  exact getD_reverse4 0 (g.getD r []) (wf_row_len g hwf r hr) c hc

theorem getCell_moveLeft (g : Grid) (r c : Nat) (hr : r < g.length) :
    getCell (moveLeft g).grid r c = ((slideAndMergeRow (g.getD r [])).1).getD c 0 := by
  show ((g.map fun row => (slideAndMergeRow row).1).getD r []).getD c 0 = _
  rw [getD_map_lt _ g r [] [] hr]

end Toolkit

theorem rowChangedB_iff (nu old : List Nat) :
    rowChangedB nu old = true ↔ ∃ c, c < 4 ∧ nu.getD c 0 ≠ old.getD c 0 := by
  simp [rowChangedB, List.any_eq_true, List.mem_range, SIZE]

theorem moveLeft_moved_iff (g : Grid) (h4 : g.length = 4) :
    (moveLeft g).moved = true
      ↔ ∃ r, r < 4 ∧ ∃ c, c < 4 ∧ getCell (moveLeft g).grid r c ≠ getCell g r c := by
  show (g.any fun row => rowChangedB (slideAndMergeRow row).1 row) = true ↔ _
  rw [List.any_eq_true, exists_getD4 [] g h4]
  constructor
  · rintro ⟨r, hr, hrow⟩
    rw [rowChangedB_iff] at hrow
    obtain ⟨c, hc, hne⟩ := hrow
    refine ⟨r, hr, c, hc, ?_⟩
    rw [getCell_moveLeft g r c (by omega)]
    exact hne
  · rintro ⟨r, hr, c, hc, hne⟩
    refine ⟨r, hr, ?_⟩
    rw [rowChangedB_iff]
    refine ⟨c, hc, ?_⟩
    rw [getCell_moveLeft g r c (by omega)] at hne
    exact hne

theorem moveRight_moved_iff (g : Grid) (hwf : wfGrid g) :
    (moveRight g).moved = true
      ↔ ∃ r, r < 4 ∧ ∃ c, c < 4 ∧ getCell (moveRight g).grid r c ≠ getCell g r c := by
  have hwfr : wfGrid (reverseRows g) := wf_reverseRows g hwf
  have hwfd : wfGrid (moveLeft (reverseRows g)).grid := wf_moveLeft _ hwfr
  show (moveLeft (reverseRows g)).moved = true ↔ _
  rw [moveLeft_moved_iff (reverseRows g) hwfr.1]
  have key : ∀ r c, r < 4 → c < 4 →
      ((getCell (moveRight g).grid r (3 - c) ≠ getCell g r (3 - c))
        ↔ (getCell (moveLeft (reverseRows g)).grid r c
            ≠ getCell (reverseRows g) r c)) := by
    intro r c hr hc
    show (getCell (reverseRows (moveLeft (reverseRows g)).grid) r (3 - c) ≠ _) ↔ _
    rw [getCell_reverseRows _ hwfd r (3 - c) hr (by omega),
      getCell_reverseRows g hwf r c hr hc]
    have h33 : 3 - (3 - c) = c := by omega
    rw [h33]
  constructor
  · rintro ⟨r, hr, c, hc, hne⟩
    refine ⟨r, hr, ?_⟩
    rw [← exists_lt4_flip fun c => getCell (moveRight g).grid r c ≠ getCell g r c]
    exact ⟨c, hc, (key r c hr hc).mpr hne⟩
  · rintro ⟨r, hr, c, hc, hne⟩
    refine ⟨r, hr, 3 - c, by omega, ?_⟩
    exact (key r (3 - c) hr (by omega)).mp (by
      have h33 : 3 - (3 - c) = c := by omega
      rw [h33]
      exact hne)

theorem moveUp_moved_iff (g : Grid) (hwf : wfGrid g) :
    (moveUp g).moved = true
      ↔ ∃ r, r < 4 ∧ ∃ c, c < 4 ∧ getCell (moveUp g).grid r c ≠ getCell g r c := by
  have hwft : wfGrid (transpose g) := wf_transpose g
  show (moveLeft (transpose g)).moved = true ↔ _
  rw [moveLeft_moved_iff (transpose g) hwft.1]
  constructor
  · rintro ⟨r, hr, c, hc, hne⟩
    refine ⟨c, hc, r, hr, ?_⟩
    show getCell (transpose (moveLeft (transpose g)).grid) c r ≠ getCell g c r
    rw [getCell_transpose _ c r hc hr, ← getCell_transpose g r c hr hc]
    exact hne
  · rintro ⟨r, hr, c, hc, hne⟩
    refine ⟨c, hc, r, hr, ?_⟩
    rw [← getCell_transpose _ r c hr hc, getCell_transpose g c r hc hr]
    exact hne

theorem moveDown_moved_iff (g : Grid) (hwf : wfGrid g) :
    (moveDown g).moved = true
      ↔ ∃ r, r < 4 ∧ ∃ c, c < 4 ∧ getCell (moveDown g).grid r c ≠ getCell g r c := by
  have hwft : wfGrid (transpose g) := wf_transpose g
  show (moveRight (transpose g)).moved = true ↔ _
  rw [moveRight_moved_iff (transpose g) hwft]
  constructor
  · rintro ⟨r, hr, c, hc, hne⟩
    refine ⟨c, hc, r, hr, ?_⟩
    show getCell (transpose (moveRight (transpose g)).grid) c r ≠ getCell g c r
    rw [getCell_transpose _ c r hc hr, ← getCell_transpose g r c hr hc]
    exact hne
  · rintro ⟨r, hr, c, hc, hne⟩
    refine ⟨c, hc, r, hr, ?_⟩
    rw [← getCell_transpose _ r c hr hc, getCell_transpose g c r hc hr]
    exact hne

/-- Claim C2: for every board and each of the four directional moves, the
`moved` flag is true exactly when some cell's value differs between the
board and the move's resulting grid. -/
theorem claim2_moved_iff (d : Direction) (B : Grid) (hwf : wfGrid B) :
    (dmove d B).moved = true
      ↔ ∃ r, r < 4 ∧ ∃ c, c < 4 ∧ getCell (dmove d B).grid r c ≠ getCell B r c := by
  cases d
  · exact moveLeft_moved_iff B hwf.1
  · exact moveRight_moved_iff B hwf
  · exact moveUp_moved_iff B hwf
  · exact moveDown_moved_iff B hwf

/-- Witness for claim C2 at a concrete board and direction. -/
theorem claim2_moved_iff_witness :
    (dmove Direction.left [[2,0,2,0],[0,0,0,0],[0,0,0,0],[0,0,0,0]]).moved = true
      ↔ ∃ r, r < 4 ∧ ∃ c, c < 4 ∧
          getCell (dmove Direction.left
            [[2,0,2,0],[0,0,0,0],[0,0,0,0],[0,0,0,0]]).grid r c
            ≠ getCell [[2,0,2,0],[0,0,0,0],[0,0,0,0],[0,0,0,0]] r c :=
  claim2_moved_iff Direction.left [[2,0,2,0],[0,0,0,0],[0,0,0,0],[0,0,0,0]]
    (by decide)

/-- Claim C5: `canMove` returns true exactly when some cell is empty or some
two horizontally- or vertically-adjacent cells hold equal values (and hence
false exactly when the board is full with no equal adjacent pair). -/
theorem claim5_canMove (B : Grid) (hwf : wfGrid B) :
    canMove B = true
      ↔ (∃ r, r < 4 ∧ ∃ c, c < 4 ∧ getCell B r c = 0)
        ∨ (∃ r, r < 4 ∧ ∃ c, c < 3 ∧ getCell B r c = getCell B r (c + 1))
        ∨ (∃ r, r < 3 ∧ ∃ c, c < 4 ∧ getCell B r c = getCell B (r + 1) c) := by
  simp only [canMove, SIZE, Bool.or_eq_true, List.any_eq_true, List.mem_range,
    Bool.and_eq_true, decide_eq_true_eq]
  constructor
  · rintro (⟨r, hr, c, hc, h0⟩ | ⟨r, hr, c, hc, (⟨hc3, he⟩ | ⟨hr3, he⟩)⟩)
    · exact Or.inl ⟨r, hr, c, hc, h0⟩
    · exact Or.inr (Or.inl ⟨r, hr, c, by omega, he.symm⟩)
    · exact Or.inr (Or.inr ⟨r, by omega, c, hc, he.symm⟩)
  · rintro (⟨r, hr, c, hc, h0⟩ | ⟨r, hr, c, hc3, he⟩ | ⟨r, hr3, c, hc, he⟩)
    · exact Or.inl ⟨r, hr, c, hc, h0⟩
    · exact Or.inr ⟨r, hr, c, by omega, Or.inl ⟨by omega, he.symm⟩⟩
    · exact Or.inr ⟨r, by omega, c, hc, Or.inr ⟨by omega, he.symm⟩⟩

/-- Witness for claim C5 at a concrete full board with no legal move. -/
theorem claim5_canMove_witness :
    canMove [[2,4,2,4],[4,2,4,2],[2,4,2,4],[4,2,4,2]] = true
      ↔ (∃ r, r < 4 ∧ ∃ c, c < 4 ∧
            getCell [[2,4,2,4],[4,2,4,2],[2,4,2,4],[4,2,4,2]] r c = 0)
        ∨ (∃ r, r < 4 ∧ ∃ c, c < 3 ∧
            getCell [[2,4,2,4],[4,2,4,2],[2,4,2,4],[4,2,4,2]] r c
              = getCell [[2,4,2,4],[4,2,4,2],[2,4,2,4],[4,2,4,2]] r (c + 1))
        ∨ (∃ r, r < 3 ∧ ∃ c, c < 4 ∧
            getCell [[2,4,2,4],[4,2,4,2],[2,4,2,4],[4,2,4,2]] r c
              = getCell [[2,4,2,4],[4,2,4,2],[2,4,2,4],[4,2,4,2]] (r + 1) c) :=
  claim5_canMove [[2,4,2,4],[4,2,4,2],[2,4,2,4],[4,2,4,2]] (by decide)

theorem moveLeft_gridSum (g : Grid) : gridSum (moveLeft g).grid = gridSum g := by
  show ((g.map fun row => (slideAndMergeRow row).1).map List.sum).sum = _
  rw [List.map_map]
  have hcong : g.map (List.sum ∘ fun row => (slideAndMergeRow row).1)
      = g.map List.sum :=
    List.map_congr_left (fun row _ => slideAndMergeRow_sum row)
  rw [hcong]
  rfl

theorem reverseRows_gridSum (g : Grid) : gridSum (reverseRows g) = gridSum g := by
  show ((g.map List.reverse).map List.sum).sum = _
  rw [List.map_map]
  have hcong : g.map (List.sum ∘ List.reverse) = g.map List.sum :=
    List.map_congr_left (fun row _ => List.sum_reverse row)
  rw [hcong]
  rfl

theorem transpose_gridSum (g : Grid) (hwf : wfGrid g) :
    gridSum (transpose g) = gridSum g := by
  obtain ⟨r0, r1, r2, r3, hg⟩ := list4_cases g hwf.1
  subst hg
  obtain ⟨a0, a1, a2, a3, h0⟩ := list4_cases r0 (hwf.2 r0 (by simp))
  obtain ⟨b0, b1, b2, b3, h1⟩ := list4_cases r1 (hwf.2 r1 (by simp))
  obtain ⟨c0, c1, c2, c3, h2⟩ := list4_cases r2 (hwf.2 r2 (by simp))
  obtain ⟨d0, d1, d2, d3, h3⟩ := list4_cases r3 (hwf.2 r3 (by simp))
  subst h0 h1 h2 h3
  have ht : transpose [[a0,a1,a2,a3],[b0,b1,b2,b3],[c0,c1,c2,c3],[d0,d1,d2,d3]]
      = [[a0,b0,c0,d0],[a1,b1,c1,d1],[a2,b2,c2,d2],[a3,b3,c3,d3]] := rfl
  rw [ht]
  simp [gridSum]
  omega

/-- Claim C10: each of the four directional moves preserves the total of all
cell values of the board. -/
theorem claim10_sum_preserved (d : Direction) (B : Grid) (hwf : wfGrid B) :
    gridSum (dmove d B).grid = gridSum B := by
  cases d
  · exact moveLeft_gridSum B
  · show gridSum (reverseRows (moveLeft (reverseRows B)).grid) = _
    rw [reverseRows_gridSum, moveLeft_gridSum, reverseRows_gridSum]
  · show gridSum (transpose (moveLeft (transpose B)).grid) = _
    rw [transpose_gridSum _ (wf_moveLeft _ (wf_transpose B)), moveLeft_gridSum]
    exact transpose_gridSum B hwf
  · show gridSum (transpose (moveRight (transpose B)).grid) = _
    rw [transpose_gridSum _ (wf_moveRight _ (wf_transpose B))]
    show gridSum (reverseRows (moveLeft (reverseRows (transpose B))).grid) = _
    rw [reverseRows_gridSum, moveLeft_gridSum, reverseRows_gridSum]
    exact transpose_gridSum B hwf

/-- Witness for claim C10 at a concrete board and direction. -/
theorem claim10_sum_preserved_witness :
    gridSum (dmove Direction.down [[2,2,0,0],[4,0,0,0],[0,0,0,0],[4,0,0,2]]).grid
      = gridSum [[2,2,0,0],[4,0,0,0],[0,0,0,0],[4,0,0,2]] :=
  claim10_sum_preserved Direction.down [[2,2,0,0],[4,0,0,0],[0,0,0,0],[4,0,0,2]]
    (by decide)

namespace Sparse

/-- Tile record of the sparse variant (`App.tsx` lines 6-11). -/
structure Tile where
  id : Nat
  value : Nat
  row : Nat
  col : Nat
  deriving DecidableEq

/-- Value of an optional cell: empty cells count as 0. -/
def valOf : Option Tile → Nat
  | none => 0
  | some t => t.value

/-- Identity of an optional cell, as compared by `old?.id !== nu?.id`. -/
def idOf (o : Option Tile) : Option Nat := o.map Tile.id

def valRow (l : List (Option Tile)) : List Nat := l.map valOf

def valGridOf (g : List (List (Option Tile))) : Grid := g.map valRow

/-- The loop of `slideRow` (`App.tsx` lines 60-74) over the non-null tiles:
two adjacent tiles of equal value merge into a fresh tile whose id is the
current value of the global counter `nextId` (which the source increments),
skipping both sources; any other tile is emitted as a copy.  Returns the
produced tiles, the updated counter and the merged flag. -/
def slideVals : List Tile → Nat → List Tile × Nat × Bool
  | [], n => ([], n, false)
  | [t], n => ([t], n, false)
  | a :: b :: rest, n =>
    if a.value = b.value then
      let r := slideVals rest (n + 1)
      (⟨n, a.value * 2, 0, 0⟩ :: r.1, r.2.1, true)
    else
      let r := slideVals (b :: rest) n
      (a :: r.1, r.2.1, r.2.2)

/-- `slideRow` (`App.tsx` lines 55-77): drop the nulls, run the merge loop,
and pad with nulls up to `SIZE`.  (The positions stored inside the produced
tiles are reassigned by `moveTiles` from the cell they land in, so they are
set at flattening time below.) -/
def slideRow (l : List (Option Tile)) (n : Nat) :
    List (Option Tile) × Nat × Bool :=
  let vals := l.filterMap id
  let r := slideVals vals n
  (r.1.map some ++ List.replicate (SIZE - r.1.length) none, r.2.1, r.2.2)

/-- The per-line `moved` accumulation of `moveTiles` (`App.tsx` lines 97-105
and 122-127): compare `old?.id !== nu?.id` cell by cell over the line. -/
def rowIdsDiffer (old nu : List (Option Tile)) : Bool :=
  (List.range SIZE).any fun c =>
    decide (idOf (old.getD c none) ≠ idOf (nu.getD c none))

/-- Process the lines of the grid top-to-bottom (the row loop of `moveTiles`;
with `rev = true` the line is reversed before sliding and reversed back, as
for `ArrowRight`/`ArrowDown`), threading the id counter and accumulating the
`moved` flag. -/
def doRows (rev : Bool) :
    List (List (Option Tile)) → Nat →
      List (List (Option Tile)) × Nat × Bool
  | [], n => ([], n, false)
  | row :: rest, n =>
    let work := if rev then row.reverse else row
    let s := slideRow work n
    let nu := if rev then s.1.reverse else s.1
    let r := doRows rev rest s.2.1
    (nu :: r.1, r.2.1, rowIdsDiffer row nu || r.2.2)

/-- Cell access on the optional grid. -/
def getO (g : List (List (Option Tile))) (r c : Nat) : Option Tile :=
  (g.getD r []).getD c none

/-- The column extraction of `moveTiles` (`grid.map(row => row[c])`) is row
`c` of the transpose; the column branch is modelled as transpose, line
processing, transpose back. -/
def transposeO (g : List (List (Option Tile))) : List (List (Option Tile)) :=
  (List.range SIZE).map fun r => (List.range SIZE).map fun c => getO g c r

/-- Placement of the tile list into a grid (`tiles.forEach(t =>
grid[t.row][t.col] = t)`, `App.tsx` lines 87-89); later tiles overwrite
earlier ones at the same cell. -/
def toOptGrid (tiles : List Tile) : List (List (Option Tile)) :=
  tiles.foldl (fun g t => g.set t.row ((g.getD t.row []).set t.col (some t)))
    (List.replicate SIZE (List.replicate SIZE none))

/-- Flattening of the processed grid back to a tile list
(`grid.flat().filter(t => t !== null)`), with each tile's position set to
the cell it occupies, as assigned by the `nu.row = r; nu.col = c` loops. -/
def tilesOfGrid (g : List (List (Option Tile))) : List Tile :=
  ((List.range SIZE).map fun r => (List.range SIZE).filterMap fun c =>
    (getO g r c).map fun t => { t with row := r, col := c }).flatten

structure SMoveResult where
  tiles : List Tile
  nextId : Nat
  moved : Bool
  deriving DecidableEq

/-- `moveTiles` (`App.tsx` lines 79-134): place the tiles into a grid, slide
every line in the given direction (rows for left/right, columns — rows of
the transpose — for up/down, reversed for right/down), and flatten back. -/
def moveTiles (tiles : List Tile) (d : Direction) (n : Nat) : SMoveResult :=
  let g := toOptGrid tiles
  match d with
  | .left =>
    let r := doRows false g n
    ⟨tilesOfGrid r.1, r.2.1, r.2.2⟩
  | .right =>
    let r := doRows true g n
    ⟨tilesOfGrid r.1, r.2.1, r.2.2⟩
  | .up =>
    let r := doRows false (transposeO g) n
    ⟨tilesOfGrid (transposeO r.1), r.2.1, r.2.2⟩
  | .down =>
    let r := doRows true (transposeO g) n
    ⟨tilesOfGrid (transposeO r.1), r.2.1, r.2.2⟩

/-- Dense value projection of a tile list (the grid built by the sparse
`canMove`, `App.tsx` lines 40-43): each tile's value at its cell, 0
elsewhere. -/
def projT (tiles : List Tile) : Grid :=
  tiles.foldl (fun g t => setCell g t.row t.col t.value)
    (List.replicate SIZE (List.replicate SIZE 0))

/-- `getEmptyCells` (`App.tsx` lines 19-28): the row-major list of cells not
occupied by any tile. -/
def getEmptyCells (tiles : List Tile) : List (Nat × Nat) :=
  ((List.range SIZE).map fun r => (List.range SIZE).filterMap fun c =>
    if tiles.any fun t => decide (t.row = r) && decide (t.col = c) then none
    else some (r, c)).flatten

/-- `addRandomTile` (`App.tsx` lines 30-36): no-op when the board is full,
otherwise append a fresh tile of value 2 or 4 on one of the empty cells.
The random index is modelled by `k % length` and the value choice by the
flag `four`; the fresh id is the counter `n`, which is incremented. -/
def addRandomTile (tiles : List Tile) (n k : Nat) (four : Bool) :
    List Tile × Nat :=
  let empties := getEmptyCells tiles
  match empties with
  | [] => (tiles, n)
  | _ =>
    let p := empties.getD (k % empties.length) (0, 0)
    (tiles ++ [⟨n, if four then 4 else 2, p.1, p.2⟩], n + 1)

/-- `canMove` of the sparse variant (`App.tsx` lines 38-53): true when fewer
than 16 tiles are present, otherwise true when some cell equals its right or
down neighbour in the projected value grid. -/
def canMove (tiles : List Tile) : Bool :=
  if tiles.length < SIZE * SIZE then true
  else
    (List.range SIZE).any fun r => (List.range SIZE).any fun c =>
      (decide (c < SIZE - 1)
        && decide (getCell (projT tiles) r (c + 1) = getCell (projT tiles) r c))
      || (decide (r < SIZE - 1)
        && decide (getCell (projT tiles) (r + 1) c = getCell (projT tiles) r c))

/-- Well-formed tile lists: every tile sits on the board and carries a
nonzero (power-of-two) value. -/
def wfTiles (tiles : List Tile) : Prop :=
  ∀ t ∈ tiles, t.row < 4 ∧ t.col < 4 ∧ t.value ≠ 0

instance (tiles : List Tile) : Decidable (wfTiles tiles) := by
  unfold wfTiles; infer_instance

end Sparse

section GetDUtil

theorem getD_append_lt {α : Type _} (a b : List α) (d : α) (i : Nat)
    (h : i < a.length) : (a ++ b).getD i d = a.getD i d := by
  rw [List.getD_eq_getElem _ _ (by simp; omega), List.getD_eq_getElem _ _ h]
  exact List.getElem_append_left h

theorem getD_append_ge {α : Type _} (a b : List α) (d : α) (i : Nat)
    (h : a.length ≤ i) : (a ++ b).getD i d = b.getD (i - a.length) d := by
  by_cases hib : i - a.length < b.length
  · rw [List.getD_eq_getElem _ _ (by simp; omega), List.getD_eq_getElem _ _ hib]
    exact List.getElem_append_right h
  · rw [List.getD_eq_default _ _ (by simp; omega), List.getD_eq_default _ _ (by omega)]

theorem getD_replicate_self {α : Type _} (k i : Nat) (x : α) :
    (List.replicate k x).getD i x = x := by
  by_cases h : i < k
  · rw [List.getD_eq_getElem _ _ (by simpa using h)]
    simp
  · exact List.getD_eq_default _ _ (by simpa using h)

theorem getD_set_ne {α : Type _} (l : List α) (i j : Nat) (a : α) (d : α)
    (h : i ≠ j) : (l.set i a).getD j d = l.getD j d := by
  by_cases hj : j < l.length
  · rw [List.getD_eq_getElem _ _ (by simpa using hj), List.getD_eq_getElem _ _ hj]
    exact List.getElem_set_ne h _
  · rw [List.getD_eq_default _ _ (by simpa using hj),
      List.getD_eq_default _ _ (by omega)]

theorem getD_set_self {α : Type _} (l : List α) (i : Nat) (a : α) (d : α)
    (h : i < l.length) : (l.set i a).getD i d = a := by
  rw [List.getD_eq_getElem _ _ (by simpa using h)]
  simp

theorem getD_set_self_ge {α : Type _} (l : List α) (i : Nat) (a : α) (d : α)
    (h : l.length ≤ i) : (l.set i a).getD i d = d := by
  exact List.getD_eq_default _ _ (by simpa using h)

theorem getD_mem_or {α : Type _} (l : List α) (i : Nat) (d : α) :
    l.getD i d ∈ l ∨ l.getD i d = d := by
  by_cases h : i < l.length
  · rw [List.getD_eq_getElem _ _ h]
    exact Or.inl (List.getElem_mem _)
  · exact Or.inr (List.getD_eq_default _ _ (by omega))

theorem forall_lt4_flip (P : Nat → Prop) :
    (∀ c, c < 4 → P (3 - c)) ↔ ∀ c, c < 4 → P c := by
  constructor
  · intro h c hc
    have h33 : 3 - (3 - c) = c := by omega
    have := h (3 - c) (by omega)
    rwa [h33] at this
  · intro h c hc
    exact h (3 - c) (by omega)

end GetDUtil

namespace Sparse

theorem slideVals_values (vals : List Tile) :
    ∀ n, ((slideVals vals n).1).map Tile.value
      = (mergeLine (vals.map Tile.value)).1 := by
  induction vals using twoStepInd with
  | h0 => intro n; rfl
  | h1 a => intro n; rfl
  | h2 a b rest ih ih2 =>
    intro n
    by_cases h : a.value = b.value
    · simp only [slideVals, h, if_true, List.map_cons, mergeLine, List.map]
      rw [ih]
    · simp only [slideVals, h, if_false, List.map_cons, mergeLine, List.map]
      simpa using ih2 n

theorem slideVals_length (vals : List Tile) (n : Nat) :
    ((slideVals vals n).1).length = (mergeLine (vals.map Tile.value)).1.length := by
  rw [← slideVals_values vals n, List.length_map]

theorem slideVals_len_le (vals : List Tile) (n : Nat) :
    ((slideVals vals n).1).length ≤ vals.length := by
  rw [slideVals_length]
  calc (mergeLine (vals.map Tile.value)).1.length
      ≤ (vals.map Tile.value).length := mergeLine_length_le _
    _ = vals.length := List.length_map _ _

theorem slideVals_no_merge (vals : List Tile) :
    ∀ n, ((slideVals vals n).1).length = vals.length → (slideVals vals n).1 = vals := by
  induction vals using twoStepInd with
  | h0 => intro n _; rfl
  | h1 a => intro n _; rfl
  | h2 a b rest ih ih2 =>
    intro n h
    by_cases hab : a.value = b.value
    · exfalso
      have hle := slideVals_len_le rest (n + 1)
      simp only [slideVals, hab, if_true, List.length_cons] at h
      omega
    · simp only [slideVals, hab, if_false, List.length_cons] at h ⊢
      rw [ih2 n (by simpa using h)]

theorem slideVals_pos (vals : List Tile) (n : Nat)
    (hv : ∀ t ∈ vals, t.value ≠ 0) :
    ∀ t ∈ (slideVals vals n).1, t.value ≠ 0 := by
  intro t ht
  have hmem : t.value ∈ ((slideVals vals n).1).map Tile.value :=
    List.mem_map_of_mem _ ht
  rw [slideVals_values vals n] at hmem
  refine mergeLine_pos (vals.map Tile.value) ?_ t.value hmem
  intro x hx
  obtain ⟨u, hu, rfl⟩ := List.mem_map.mp hx
  exact hv u hu

theorem valRow_filterMap (l : List (Option Tile))
    (hv : ∀ t, some t ∈ l → t.value ≠ 0) :
    (l.filterMap id).map Tile.value = (valRow l).filter (· ≠ 0) := by
  induction l with
  | nil => rfl
  | cons o t ih =>
    have iht := ih (fun u hu => hv u (by simp [hu]))
    cases o with
    | none =>
      simp only [List.filterMap_cons, id, valRow, List.map_cons, valOf]
      rw [List.filter_cons_of_neg (by simp)]
      exact iht
    | some a =>
      have ha : a.value ≠ 0 := hv a (by simp)
      simp only [List.filterMap_cons, id, valRow, List.map_cons, valOf,
        List.map_cons]
      rw [List.filter_cons_of_pos (by simpa using ha)]
      simpa using iht

theorem valRow_pad (xs : List Tile) (k : Nat) :
    valRow (xs.map some ++ List.replicate k none)
      = xs.map Tile.value ++ List.replicate k 0 := by
  simp only [valRow, List.map_append, List.map_map, List.map_replicate]
  rfl

theorem valRow_slideRow (l : List (Option Tile)) (n : Nat)
    (hv : ∀ t, some t ∈ l → t.value ≠ 0) :
    valRow (slideRow l n).1 = (slideAndMergeRow (valRow l)).1 := by
  show valRow (((slideVals (l.filterMap id) n).1).map some
      ++ List.replicate (SIZE - ((slideVals (l.filterMap id) n).1).length) none)
    = (slideAndMergeRow (valRow l)).1
  rw [valRow_pad, slideVals_values _ n, valRow_filterMap l hv, slideAndMergeRow_eq]
  have hlen : ((slideVals (l.filterMap id) n).1).length
      = (mergeLine ((valRow l).filter (· ≠ 0))).1.length := by
    rw [slideVals_length, valRow_filterMap l hv]
  rw [hlen]

end Sparse

theorem occ_prefix {α : Type _} (l : List (Option α)) :
    ∀ K, K ≤ l.length →
      (∀ c, c < l.length → ((l.getD c none).isSome ↔ c < K)) →
      l = (l.filterMap id).map some ++ List.replicate (l.length - K) none
      ∧ (l.filterMap id).length = K := by
  induction l with
  | nil =>
    intro K hK _
    simp at hK
    subst hK
    simp
  | cons o t ih =>
    intro K hK hocc
    cases K with
    | zero =>
      have ho : o = none := by
        have h0 := hocc 0 (by simp)
        cases o with
        | none => rfl
        | some a => simp at h0
      subst ho
      have ht := ih 0 (by omega) (fun c hc => by
        have h1 := hocc (c + 1) (by simp; omega)
        rw [List.getD_cons_succ] at h1
        rw [h1]
        omega)
      have hnil : t.filterMap id = [] := List.length_eq_zero.mp ht.2
      have ht1 : t = List.replicate t.length none := by
        have h2 := ht.1
        rw [hnil] at h2
        simpa using h2
      have hfm : List.filterMap id ((none : Option α) :: t) = t.filterMap id := rfl
      refine ⟨?_, ?_⟩
      · rw [hfm, hnil]
        simp only [List.map_nil, List.nil_append, List.length_cons, Nat.sub_zero]
        rw [List.replicate_succ, ← ht1]
      · rw [hfm, hnil]
        rfl
    | succ K2 =>
      obtain ⟨a, rfl⟩ : ∃ a, o = some a := by
        have h0 := hocc 0 (by simp)
        cases o with
        | none => simp at h0
        | some a => exact ⟨a, rfl⟩
      have ht := ih K2 (by simp at hK; omega) (fun c hc => by
        have h1 := hocc (c + 1) (by simp; omega)
        rw [List.getD_cons_succ] at h1
        rw [h1]
        omega)
      have hfm : List.filterMap id (some a :: t) = a :: t.filterMap id := rfl
      refine ⟨?_, ?_⟩
      · rw [hfm]
        have hl2 : (some a :: t).length - (K2 + 1) = t.length - K2 := by
          simp
        rw [hl2]
        simp only [List.map_cons, List.cons_append]
        rw [← ht.1]
      · rw [hfm]
        simp only [List.length_cons, ht.2]

namespace Sparse

theorem slideRow_length (l : List (Option Tile)) (n : Nat) (hl : l.length = 4) :
    ((slideRow l n).1).length = 4 := by
  have h1 : (l.filterMap id).length ≤ l.length := List.length_filterMap_le _ _
  have h2 := slideVals_len_le (l.filterMap id) n
  show (((slideVals (l.filterMap id) n).1).map some
      ++ List.replicate (SIZE - ((slideVals (l.filterMap id) n).1).length) none).length = 4
  simp only [List.length_append, List.length_map, List.length_replicate, SIZE]
  omega

theorem slideRow_occ (l : List (Option Tile)) (n : Nat) (c : Nat) :
    (((slideRow l n).1).getD c none).isSome
      ↔ c < ((slideVals (l.filterMap id) n).1).length := by
  show ((((slideVals (l.filterMap id) n).1).map some
      ++ List.replicate (SIZE - ((slideVals (l.filterMap id) n).1).length) none).getD
        c none).isSome ↔ _
  by_cases h : c < ((slideVals (l.filterMap id) n).1).length
  · rw [getD_append_lt _ _ _ _ (by simpa using h),
      getD_map_lt some _ c none ⟨0, 0, 0, 0⟩ h]
    simpa using h
  · rw [getD_append_ge _ _ _ _ (by simpa using h), getD_replicate_self]
    simpa using h

theorem slideRow_values_pos (l : List (Option Tile)) (n : Nat)
    (hv : ∀ t, some t ∈ l → t.value ≠ 0) :
    ∀ t, some t ∈ (slideRow l n).1 → t.value ≠ 0 := by
  intro t ht
  show t.value ≠ 0
  have hvals : ∀ u ∈ l.filterMap id, u.value ≠ 0 := by
    intro u hu
    obtain ⟨o, ho, heq⟩ := List.mem_filterMap.mp hu
    cases o with
    | none => simp [id] at heq
    | some w =>
      simp only [id, Option.some.injEq] at heq
      subst heq
      exact hv w ho
  rcases List.mem_append.mp ht with hm | hm
  · obtain ⟨u, hu, heq⟩ := List.mem_map.mp hm
    have hut : u = t := by simpa using heq
    rw [← hut]
    exact slideVals_pos _ n hvals u hu
  · exfalso
    have := List.eq_of_mem_replicate hm
    simp at this

theorem slideRow_eq_self_of_occ (l : List (Option Tile)) (n : Nat)
    (hl : l.length = 4)
    (hocc : ∀ c, c < 4 →
      ((l.getD c none).isSome = (((slideRow l n).1).getD c none).isSome)) :
    (slideRow l n).1 = l := by
  set K := ((slideVals (l.filterMap id) n).1).length with hK
  have hKle : K ≤ l.length := by
    have h1 : (l.filterMap id).length ≤ l.length := List.length_filterMap_le _ _
    have h2 := slideVals_len_le (l.filterMap id) n
    omega
  have hpre := occ_prefix l K hKle (fun c hc => by
    rw [hocc c (by omega)]
    exact slideRow_occ l n c)
  have hout : (slideVals (l.filterMap id) n).1 = l.filterMap id :=
    slideVals_no_merge _ n (by rw [← hK, hpre.2])
  show ((slideVals (l.filterMap id) n).1).map some
      ++ List.replicate (SIZE - ((slideVals (l.filterMap id) n).1).length) none = l
  rw [hout]
  have hpad : SIZE - (l.filterMap id).length = l.length - K := by
    rw [hpre.2, hl]
    rfl
  rw [hpad, ← hpre.1]

end Sparse

theorem bool_eq_of_false_iff (b1 b2 : Bool) (h : b1 = false ↔ b2 = false) :
    b1 = b2 := by
  cases b1 <;> cases b2 <;> simp_all

namespace Sparse

theorem valRow_getD (x : List (Option Tile)) (i : Nat) :
    (valRow x).getD i 0 = valOf (x.getD i none) := by
  by_cases h : i < x.length
  · exact getD_map_lt valOf x i 0 none h
  · rw [List.getD_eq_default _ _ (by simpa [valRow] using h),
      List.getD_eq_default _ _ (by omega)]
    rfl

theorem cell_isSome_iff (x : List (Option Tile))
    (hvx : ∀ t, some t ∈ x → t.value ≠ 0) (c : Nat) :
    (x.getD c none).isSome = true ↔ valOf (x.getD c none) ≠ 0 := by
  cases hcell : x.getD c none with
  | none => simp [valOf]
  | some t =>
    have hmem : some t ∈ x := by
      rcases getD_mem_or x c none with hm | hm
      · rwa [hcell] at hm
      · rw [hcell] at hm
        exact absurd hm (by simp)
    simp [valOf, hvx t hmem]

theorem rowIdsDiffer_false_pointwise (x y : List (Option Tile)) :
    rowIdsDiffer x y = false
      ↔ ∀ c, c < 4 → idOf (x.getD c none) = idOf (y.getD c none) := by
  simp [rowIdsDiffer, List.any_eq_false, List.mem_range, SIZE]

theorem rowChangedB_false_pointwise (nu old : List Nat) :
    rowChangedB nu old = false
      ↔ ∀ c, c < 4 → nu.getD c 0 = old.getD c 0 := by
  simp [rowChangedB, List.any_eq_false, List.mem_range, SIZE]

theorem rowIdsDiffer_false_iff (l : List (Option Tile)) (n : Nat)
    (hl : l.length = 4) :
    rowIdsDiffer l (slideRow l n).1 = false ↔ (slideRow l n).1 = l := by
  constructor
  · intro h
    have hp := (rowIdsDiffer_false_pointwise _ _).mp h
    refine slideRow_eq_self_of_occ l n hl (fun c hc => ?_)
    have h1 := hp c hc
    have h2 : (idOf (l.getD c none)).isSome
        = (idOf (((slideRow l n).1).getD c none)).isSome := by rw [h1]
    simpa [idOf] using h2
  · intro h
    rw [h]
    simp [rowIdsDiffer]

theorem rowChangedB_valRow_false_iff (l : List (Option Tile)) (n : Nat)
    (hl : l.length = 4) (hv : ∀ t, some t ∈ l → t.value ≠ 0) :
    rowChangedB (valRow (slideRow l n).1) (valRow l) = false
      ↔ (slideRow l n).1 = l := by
  constructor
  · intro h
    have hp := (rowChangedB_false_pointwise _ _).mp h
    refine slideRow_eq_self_of_occ l n hl (fun c hc => ?_)
    have h1 := hp c hc
    rw [valRow_getD, valRow_getD] at h1
    have hiff1 := cell_isSome_iff l hv c
    have hiff2 := cell_isSome_iff (slideRow l n).1 (slideRow_values_pos l n hv) c
    by_cases hsome : (l.getD c none).isSome = true
    · have hval : valOf (l.getD c none) ≠ 0 := hiff1.mp hsome
      have : valOf (((slideRow l n).1).getD c none) ≠ 0 := by rw [h1]; exact hval
      rw [hsome, (hiff2.mpr this)]
    · have hval : ¬ valOf (l.getD c none) ≠ 0 := fun hcon => hsome (hiff1.mpr hcon)
      have hval2 : ¬ valOf (((slideRow l n).1).getD c none) ≠ 0 := by
        rw [h1]; exact hval
      have hs2 : ¬ ((slideRow l n).1.getD c none).isSome = true :=
        fun hcon => hval2 (hiff2.mp hcon)
      simp only [Bool.not_eq_true] at hsome hs2
      rw [hsome, hs2]
  · intro h
    rw [h]
    exact rowChangedB_self _

theorem rowIdsDiffer_eq_rowChangedB (l : List (Option Tile)) (n : Nat)
    (hl : l.length = 4) (hv : ∀ t, some t ∈ l → t.value ≠ 0) :
    rowIdsDiffer l (slideRow l n).1
      = rowChangedB (valRow (slideRow l n).1) (valRow l) :=
  bool_eq_of_false_iff _ _
    ((rowIdsDiffer_false_iff l n hl).trans
      (rowChangedB_valRow_false_iff l n hl hv).symm)

theorem rowIdsDiffer_reverse (a b : List (Option Tile))
    (ha : a.length = 4) (hb : b.length = 4) :
    rowIdsDiffer a b.reverse = rowIdsDiffer a.reverse b := by
  refine bool_eq_of_false_iff _ _ ?_
  rw [rowIdsDiffer_false_pointwise, rowIdsDiffer_false_pointwise]
  have h1 : ∀ c, c < 4 → (b.reverse.getD c none) = b.getD (3 - c) none :=
    fun c hc => getD_reverse4 none b hb c hc
  have h2 : ∀ c, c < 4 → (a.reverse.getD c none) = a.getD (3 - c) none :=
    fun c hc => getD_reverse4 none a ha c hc
  constructor
  · intro h c hc
    rw [h2 c hc]
    have := h (3 - c) (by omega)
    rw [h1 (3 - c) (by omega)] at this
    rwa [show 3 - (3 - c) = c by omega] at this
  · intro h c hc
    rw [h1 c hc]
    have := h (3 - c) (by omega)
    rw [h2 (3 - c) (by omega)] at this
    rwa [show 3 - (3 - c) = c by omega] at this

end Sparse

namespace Sparse

theorem valRow_reverse (l : List (Option Tile)) :
    valRow l.reverse = (valRow l).reverse := by
  simp [valRow]

theorem doRows_spec (rev : Bool) :
    ∀ (rows : List (List (Option Tile))) (n : Nat),
      (∀ r ∈ rows, r.length = 4) →
      (∀ r ∈ rows, ∀ t, some t ∈ r → t.value ≠ 0) →
      valGridOf (doRows rev rows n).1
        = (valGridOf rows).map (fun vr =>
            if rev then ((slideAndMergeRow vr.reverse).1).reverse
            else (slideAndMergeRow vr).1)
      ∧ (doRows rev rows n).2.2
        = (valGridOf rows).any (fun vr =>
            if rev then rowChangedB (slideAndMergeRow vr.reverse).1 vr.reverse
            else rowChangedB (slideAndMergeRow vr).1 vr)
      ∧ (∀ r2 ∈ (doRows rev rows n).1, r2.length = 4)
      ∧ (∀ r2 ∈ (doRows rev rows n).1, ∀ t, some t ∈ r2 → t.value ≠ 0)
      ∧ ((doRows rev rows n).1).length = rows.length := by
  intro rows
  induction rows with
  | nil =>
    intro n _ _
    exact ⟨rfl, rfl, by simp [doRows], by simp [doRows], rfl⟩
  | cons row rest ih =>
    intro n hlen hv
    have hrow4 : row.length = 4 := hlen row (by simp)
    have hrowv : ∀ t, some t ∈ row → t.value ≠ 0 := hv row (by simp)
    have hrest_len : ∀ r ∈ rest, r.length = 4 := fun r hr => hlen r (by simp [hr])
    have hrest_v : ∀ r ∈ rest, ∀ t, some t ∈ r → t.value ≠ 0 :=
      fun r hr => hv r (by simp [hr])
    cases rev with
    | false =>
      obtain ⟨ihg, ihm, ihlen4, ihv4, ihN⟩ :=
        ih (slideRow row n).2.1 hrest_len hrest_v
      have hhead : valRow (slideRow row n).1 = (slideAndMergeRow (valRow row)).1 :=
        valRow_slideRow row n hrowv
      have hmhead : rowIdsDiffer row (slideRow row n).1
          = rowChangedB (slideAndMergeRow (valRow row)).1 (valRow row) := by
        rw [rowIdsDiffer_eq_rowChangedB row n hrow4 hrowv, hhead]
      refine ⟨?_, ?_, ?_, ?_, ?_⟩
      · show valRow (slideRow row n).1
            :: valGridOf (doRows false rest (slideRow row n).2.1).1
          = (slideAndMergeRow (valRow row)).1
            :: (valGridOf rest).map (fun vr => (slideAndMergeRow vr).1)
        rw [hhead]
        congr 1
      · show (rowIdsDiffer row (slideRow row n).1
            || (doRows false rest (slideRow row n).2.1).2.2)
          = (rowChangedB (slideAndMergeRow (valRow row)).1 (valRow row)
            || (valGridOf rest).any fun vr =>
                rowChangedB (slideAndMergeRow vr).1 vr)
        rw [hmhead]
        congr 1
      · intro r2 hr2
        rcases List.mem_cons.mp hr2 with rfl | hr2
        · exact slideRow_length row n hrow4
        · exact ihlen4 r2 hr2
      · intro r2 hr2
        rcases List.mem_cons.mp hr2 with rfl | hr2
        · exact slideRow_values_pos row n hrowv
        · exact ihv4 r2 hr2
      · show (doRows false rest (slideRow row n).2.1).1.length + 1 = rest.length + 1
        rw [ihN]
    | true =>
      obtain ⟨ihg, ihm, ihlen4, ihv4, ihN⟩ :=
        ih (slideRow row.reverse n).2.1 hrest_len hrest_v
      have hrev4 : row.reverse.length = 4 := by simpa using hrow4
      have hrevv : ∀ t, some t ∈ row.reverse → t.value ≠ 0 := by
        intro t ht
        exact hrowv t (List.mem_reverse.mp ht)
      have hslid4 : ((slideRow row.reverse n).1).length = 4 :=
        slideRow_length row.reverse n hrev4
      have hhead : valRow ((slideRow row.reverse n).1).reverse
          = ((slideAndMergeRow ((valRow row).reverse)).1).reverse := by
        rw [valRow_reverse, valRow_slideRow row.reverse n hrevv, valRow_reverse]
      have hmhead : rowIdsDiffer row ((slideRow row.reverse n).1).reverse
          = rowChangedB (slideAndMergeRow ((valRow row).reverse)).1
              ((valRow row).reverse) := by
        rw [rowIdsDiffer_reverse row (slideRow row.reverse n).1 hrow4 hslid4,
          rowIdsDiffer_eq_rowChangedB row.reverse n hrev4 hrevv,
          valRow_slideRow row.reverse n hrevv, valRow_reverse]
      refine ⟨?_, ?_, ?_, ?_, ?_⟩
      · show valRow ((slideRow row.reverse n).1).reverse
            :: valGridOf (doRows true rest (slideRow row.reverse n).2.1).1
          = ((slideAndMergeRow ((valRow row).reverse)).1).reverse
            :: (valGridOf rest).map (fun vr =>
                ((slideAndMergeRow vr.reverse).1).reverse)
        rw [hhead]
        congr 1
      · show (rowIdsDiffer row ((slideRow row.reverse n).1).reverse
            || (doRows true rest (slideRow row.reverse n).2.1).2.2)
          = (rowChangedB (slideAndMergeRow ((valRow row).reverse)).1
              ((valRow row).reverse)
            || (valGridOf rest).any fun vr =>
                rowChangedB (slideAndMergeRow vr.reverse).1 vr.reverse)
        rw [hmhead]
        congr 1
      · intro r2 hr2
        rcases List.mem_cons.mp hr2 with rfl | hr2
        · simpa using hslid4
        · exact ihlen4 r2 hr2
      · intro r2 hr2
        rcases List.mem_cons.mp hr2 with rfl | hr2
        · intro t ht
          exact slideRow_values_pos row.reverse n hrevv t (List.mem_reverse.mp ht)
        · exact ihv4 r2 hr2
      · show (doRows true rest (slideRow row.reverse n).2.1).1.length + 1
          = rest.length + 1
        rw [ihN]

end Sparse

section Mat

variable {α : Type _}

theorem shape4_set (g : List (List α)) (hg : g.length = 4 ∧ ∀ row ∈ g, row.length = 4)
    (r c : Nat) (x : α) :
    (g.set r ((g.getD r []).set c x)).length = 4
    ∧ ∀ row ∈ g.set r ((g.getD r []).set c x), row.length = 4 := by
  constructor
  · simpa using hg.1
  · intro row hrow
    by_cases hr : r < g.length
    · rcases List.mem_or_eq_of_mem_set hrow with hm | rfl
      · exact hg.2 row hm
      · rw [List.length_set, List.getD_eq_getElem _ _ hr]
        exact hg.2 _ (List.getElem_mem _)
    · rw [List.set_eq_of_length_le (by omega)] at hrow
      exact hg.2 row hrow

theorem getD_zeroMat (x : α) (r c : Nat) :
    ((List.replicate 4 (List.replicate 4 x)).getD r []).getD c x = x := by
  by_cases hr : r < 4
  · rw [List.getD_eq_getElem (List.replicate 4 (List.replicate 4 x)) []
      (by simpa using hr)]
    rw [List.getElem_replicate]
    exact getD_replicate_self 4 c x
  · rw [List.getD_eq_default (List.replicate 4 (List.replicate 4 x)) []
      (by simpa using hr)]
    rfl

/-- Cell value of a fold that places `f t` at each tile's position over an
initial matrix: the last tile at the cell wins, otherwise the initial value
remains. -/
theorem foldl_place_getD (f : Sparse.Tile → α) :
    ∀ (ts : List Sparse.Tile) (g0 : List (List α)) (d : α),
      (g0.length = 4 ∧ ∀ row ∈ g0, row.length = 4) →
      ∀ r c, r < 4 → c < 4 →
      ((ts.foldl (fun g t => g.set t.row ((g.getD t.row []).set t.col (f t))) g0).getD
          r []).getD c d
        = (match ts.reverse.find?
              (fun t => decide (t.row = r) && decide (t.col = c)) with
           | some t => f t
           | none => (g0.getD r []).getD c d) := by
  intro ts
  induction ts with
  | nil =>
    intro g0 d hg r c hr hc
    rfl
  | cons t ts ih =>
    intro g0 d hg r c hr hc
    have hstep := ih (g0.set t.row ((g0.getD t.row []).set t.col (f t))) d
      (shape4_set g0 hg t.row t.col (f t)) r c hr hc
    show ((ts.foldl _ (g0.set t.row ((g0.getD t.row []).set t.col (f t)))).getD
        r []).getD c d = _
    rw [hstep]
    have happ : (t :: ts).reverse.find?
          (fun u => decide (u.row = r) && decide (u.col = c))
        = ((ts.reverse.find? (fun u => decide (u.row = r) && decide (u.col = c))).or
            ([t].find? (fun u => decide (u.row = r) && decide (u.col = c)))) := by
      rw [List.reverse_cons, List.find?_append]
    rw [happ]
    cases hf : ts.reverse.find? (fun u => decide (u.row = r) && decide (u.col = c)) with
    | some u => rfl
    | none =>
      simp only [Option.none_or]
      by_cases hp : t.row = r ∧ t.col = c
      · obtain ⟨hpr, hpc⟩ := hp
        have hfind : [t].find? (fun u => decide (u.row = r) && decide (u.col = c))
            = some t := by
          simp [List.find?, hpr, hpc]
        rw [hfind]
        subst hpr
        subst hpc
        have hlen2 : t.row < g0.length := by rw [hg.1]; exact hr
        rw [getD_set_self _ _ _ _ hlen2]
        have hrow4 : (g0.getD t.row []).length = 4 := by
          rw [List.getD_eq_getElem _ _ hlen2]
          exact hg.2 _ (List.getElem_mem _)
        rw [getD_set_self _ _ _ _ (by rw [hrow4]; exact hc)]
      · have hfind : [t].find? (fun u => decide (u.row = r) && decide (u.col = c))
            = none := by
          rcases not_and_or.mp hp with h | h <;> simp [List.find?, h]
        rw [hfind]
        rcases not_and_or.mp hp with h | h
        · rw [getD_set_ne _ _ _ _ _ h]
        · by_cases hrr : t.row = r
          · subst hrr
            rw [getD_set_self _ _ _ _ (by omega), getD_set_ne _ _ _ _ _ h]
          · rw [getD_set_ne _ _ _ _ _ hrr]

end Mat

theorem grid_ext (g g2 : Grid) (hg : wfGrid g) (hg2 : wfGrid g2)
    (hcell : ∀ r c, r < 4 → c < 4 → getCell g r c = getCell g2 r c) :
    g = g2 := by
  obtain ⟨r0, r1, r2, r3, rfl⟩ := list4_cases g hg.1
  obtain ⟨s0, s1, s2, s3, rfl⟩ := list4_cases g2 hg2.1
  obtain ⟨a0, a1, a2, a3, rfl⟩ := list4_cases r0 (hg.2 _ (by simp))
  obtain ⟨b0, b1, b2, b3, rfl⟩ := list4_cases r1 (hg.2 _ (by simp))
  obtain ⟨c0, c1, c2, c3, rfl⟩ := list4_cases r2 (hg.2 _ (by simp))
  obtain ⟨d0, d1, d2, d3, rfl⟩ := list4_cases r3 (hg.2 _ (by simp))
  obtain ⟨e0, e1, e2, e3, rfl⟩ := list4_cases s0 (hg2.2 _ (by simp))
  obtain ⟨f0, f1, f2, f3, rfl⟩ := list4_cases s1 (hg2.2 _ (by simp))
  obtain ⟨i0, i1, i2, i3, rfl⟩ := list4_cases s2 (hg2.2 _ (by simp))
  obtain ⟨j0, j1, j2, j3, rfl⟩ := list4_cases s3 (hg2.2 _ (by simp))
  have q00 : a0 = e0 := hcell 0 0 (by omega) (by omega)
  have q01 : a1 = e1 := hcell 0 1 (by omega) (by omega)
  have q02 : a2 = e2 := hcell 0 2 (by omega) (by omega)
  have q03 : a3 = e3 := hcell 0 3 (by omega) (by omega)
  have q10 : b0 = f0 := hcell 1 0 (by omega) (by omega)
  have q11 : b1 = f1 := hcell 1 1 (by omega) (by omega)
  have q12 : b2 = f2 := hcell 1 2 (by omega) (by omega)
  have q13 : b3 = f3 := hcell 1 3 (by omega) (by omega)
  have q20 : c0 = i0 := hcell 2 0 (by omega) (by omega)
  have q21 : c1 = i1 := hcell 2 1 (by omega) (by omega)
  have q22 : c2 = i2 := hcell 2 2 (by omega) (by omega)
  have q23 : c3 = i3 := hcell 2 3 (by omega) (by omega)
  have q30 : d0 = j0 := hcell 3 0 (by omega) (by omega)
  have q31 : d1 = j1 := hcell 3 1 (by omega) (by omega)
  have q32 : d2 = j2 := hcell 3 2 (by omega) (by omega)
  have q33 : d3 = j3 := hcell 3 3 (by omega) (by omega)
  rw [q00, q01, q02, q03, q10, q11, q12, q13, q20, q21, q22, q23,
    q30, q31, q32, q33]

namespace Sparse

theorem wf_projT (ts : List Tile) : wfGrid (projT ts) := by
  suffices h : ∀ (ts : List Tile) (g0 : Grid), wfGrid g0 →
      wfGrid (ts.foldl (fun g t => setCell g t.row t.col t.value) g0) by
    exact h ts _ (by decide)
  intro ts
  induction ts with
  | nil => intro g0 hg0; exact hg0
  | cons t ts ih =>
    intro g0 hg0
    exact ih _ (shape4_set g0 hg0 t.row t.col t.value)

theorem shape_toOptGrid (ts : List Tile) :
    (toOptGrid ts).length = 4 ∧ ∀ row ∈ toOptGrid ts, row.length = 4 := by
  suffices h : ∀ (ts : List Tile) (g0 : List (List (Option Tile))),
      (g0.length = 4 ∧ ∀ row ∈ g0, row.length = 4) →
      ((ts.foldl (fun g t => g.set t.row ((g.getD t.row []).set t.col (some t)))
          g0).length = 4
        ∧ ∀ row ∈ ts.foldl
            (fun g t => g.set t.row ((g.getD t.row []).set t.col (some t))) g0,
            row.length = 4) by
    refine h ts _ ⟨by simp [SIZE], ?_⟩
    intro row hrow
    rw [List.eq_of_mem_replicate hrow]
    simp [SIZE]
  intro ts
  induction ts with
  | nil => intro g0 hg0; exact hg0
  | cons t ts ih =>
    intro g0 hg0
    exact ih _ (shape4_set g0 hg0 t.row t.col (some t))

theorem shape_valGridOf (g : List (List (Option Tile)))
    (hg : g.length = 4 ∧ ∀ row ∈ g, row.length = 4) : wfGrid (valGridOf g) := by
  constructor
  · simpa [valGridOf] using hg.1
  · intro row hrow
    simp only [valGridOf, List.mem_map] at hrow
    obtain ⟨row0, h0, rfl⟩ := hrow
    simpa [valRow] using hg.2 row0 h0

theorem getCell_valGridOf (g : List (List (Option Tile))) (r c : Nat) :
    getCell (valGridOf g) r c = valOf (getO g r c) := by
  by_cases hr : r < g.length
  · show ((g.map valRow).getD r []).getD c 0 = valOf ((g.getD r []).getD c none)
    rw [getD_map_lt valRow g r [] [] hr]
    exact valRow_getD _ c
  · show ((g.map valRow).getD r []).getD c 0 = valOf ((g.getD r []).getD c none)
    rw [List.getD_eq_default (g.map valRow) [] (by simpa using hr),
      List.getD_eq_default g [] (by omega)]
    rfl

theorem valGridOf_transposeO (g : List (List (Option Tile))) :
    valGridOf (transposeO g) = transpose (valGridOf g) := by
  show List.map valRow ((List.range SIZE).map fun r =>
        (List.range SIZE).map fun c => getO g c r)
    = (List.range SIZE).map fun r =>
        (List.range SIZE).map fun c => getCell (valGridOf g) c r
  rw [List.map_map]
  apply List.map_congr_left
  intro r _
  show valRow ((List.range SIZE).map fun c => getO g c r)
    = (List.range SIZE).map fun c => getCell (valGridOf g) c r
  show List.map valOf ((List.range SIZE).map fun c => getO g c r) = _
  rw [List.map_map]
  apply List.map_congr_left
  intro c _
  exact (getCell_valGridOf g c r).symm

theorem shape_transposeO (g : List (List (Option Tile))) :
    (transposeO g).length = 4 ∧ ∀ row ∈ transposeO g, row.length = 4 := by
  constructor
  · simp [transposeO, SIZE]
  · intro row hrow
    simp only [transposeO, List.mem_map, List.mem_range] at hrow
    obtain ⟨r, _, rfl⟩ := hrow
    simp [SIZE]

theorem transposeO_values (g : List (List (Option Tile)))
    (hv : ∀ row ∈ g, ∀ t, some t ∈ row → t.value ≠ 0) :
    ∀ row ∈ transposeO g, ∀ t, some t ∈ row → t.value ≠ 0 := by
  intro row hrow t ht
  simp only [transposeO, List.mem_map, List.mem_range] at hrow
  obtain ⟨r, _, rfl⟩ := hrow
  have hex : ∃ c, c ∈ List.range SIZE ∧ getO g c r = some t := by
    obtain ⟨c, hc, hcell⟩ := List.mem_map.mp ht
    exact ⟨c, hc, hcell⟩
  obtain ⟨c, _, hcell⟩ := hex
  have hcell2 : (g.getD c []).getD r none = some t := hcell
  rcases getD_mem_or g c [] with hm | hm
  · rcases getD_mem_or (g.getD c []) r none with hm2 | hm2
    · rw [hcell2] at hm2
      exact hv _ hm t hm2
    · rw [hm2] at hcell2
      exact absurd hcell2 (by simp)
  · rw [hm] at hcell2
    exact absurd hcell2 (by simp)

theorem foldl_place_mem (C : Tile → Prop) :
    ∀ (ts : List Tile) (g0 : List (List (Option Tile))),
      (∀ row ∈ g0, ∀ u, some u ∈ row → C u) → (∀ t ∈ ts, C t) →
      ∀ row ∈ ts.foldl
          (fun g t => g.set t.row ((g.getD t.row []).set t.col (some t))) g0,
        ∀ u, some u ∈ row → C u := by
  intro ts
  induction ts with
  | nil => intro g0 hg0 _; exact hg0
  | cons t ts ih =>
    intro g0 hg0 hts
    refine ih _ ?_ (fun u hu => hts u (by simp [hu]))
    intro row hrow u hu
    rcases List.mem_or_eq_of_mem_set hrow with hm | rfl
    · exact hg0 row hm u hu
    · rcases List.mem_or_eq_of_mem_set hu with hm2 | heq
      · rcases getD_mem_or g0 t.row [] with hm3 | hm3
        · exact hg0 _ hm3 u hm2
        · rw [hm3] at hm2
          exact absurd hm2 (by simp)
      · have : u = t := by simpa using heq
        rw [this]
        exact hts t (by simp)

theorem toOptGrid_values (ts : List Tile) (hwf : wfTiles ts) :
    ∀ row ∈ toOptGrid ts, ∀ u, some u ∈ row → u.value ≠ 0 := by
  refine foldl_place_mem (fun u => u.value ≠ 0) ts _ ?_ ?_
  · intro row hrow u hu
    rw [List.eq_of_mem_replicate hrow] at hu
    exact absurd (List.eq_of_mem_replicate hu) (by simp)
  · intro t ht
    exact (hwf t ht).2.2

end Sparse

namespace Sparse

theorem projT_eq_valGridOf (ts : List Tile) :
    projT ts = valGridOf (toOptGrid ts) := by
  apply grid_ext _ _ (wf_projT ts) (shape_valGridOf _ (shape_toOptGrid ts))
  intro r c hr hc
  have hbase1 : (List.replicate 4 (List.replicate 4 (0 : Nat))).length = 4
      ∧ ∀ row ∈ List.replicate 4 (List.replicate 4 (0 : Nat)), row.length = 4 := by
    refine ⟨by simp, ?_⟩
    intro row hrow
    rw [List.eq_of_mem_replicate hrow]
    simp
  have hbase2 :
      (List.replicate 4 (List.replicate 4 (none : Option Tile))).length = 4
      ∧ ∀ row ∈ List.replicate 4 (List.replicate 4 (none : Option Tile)),
          row.length = 4 := by
    refine ⟨by simp, ?_⟩
    intro row hrow
    rw [List.eq_of_mem_replicate hrow]
    simp
  have h1 : getCell (projT ts) r c
      = (match ts.reverse.find?
            (fun t => decide (t.row = r) && decide (t.col = c)) with
         | some t => t.value
         | none =>
            ((List.replicate 4 (List.replicate 4 (0 : Nat))).getD r []).getD c 0) :=
    foldl_place_getD Tile.value ts _ 0 hbase1 r c hr hc
  have h2 : getO (toOptGrid ts) r c
      = (match ts.reverse.find?
            (fun t => decide (t.row = r) && decide (t.col = c)) with
         | some t => some t
         | none =>
            ((List.replicate 4 (List.replicate 4 (none : Option Tile))).getD
              r []).getD c none) :=
    foldl_place_getD (fun t => some t) ts _ none hbase2 r c hr hc
  rw [getCell_valGridOf, h1, h2]
  cases ts.reverse.find? (fun t => decide (t.row = r) && decide (t.col = c)) with
  | none =>
    rw [getD_zeroMat, getD_zeroMat]
    rfl
  | some u => rfl

theorem mem_tilesOfGrid (g : List (List (Option Tile))) (t2 : Tile) :
    t2 ∈ tilesOfGrid g
      ↔ ∃ r, r < 4 ∧ ∃ c, c < 4 ∧ ∃ t0, getO g r c = some t0
          ∧ t2 = { t0 with row := r, col := c } := by
  constructor
  · intro h
    obtain ⟨l, hl, hmem⟩ := List.mem_flatten.mp h
    obtain ⟨r, hr, rfl⟩ := List.mem_map.mp hl
    obtain ⟨c, hc, heq⟩ := List.mem_filterMap.mp hmem
    obtain ⟨t0, hcell, heq2⟩ := Option.map_eq_some'.mp heq
    exact ⟨r, by simpa [SIZE] using List.mem_range.mp hr, c,
      by simpa [SIZE] using List.mem_range.mp hc, t0, hcell, heq2.symm⟩
  · rintro ⟨r, hr, c, hc, t0, hcell, rfl⟩
    apply List.mem_flatten.mpr
    refine ⟨(List.range SIZE).filterMap
      (fun c2 => (getO g r c2).map fun t => { t with row := r, col := c2 }), ?_, ?_⟩
    · exact List.mem_map.mpr ⟨r, List.mem_range.mpr (by simpa [SIZE] using hr), rfl⟩
    · apply List.mem_filterMap.mpr
      exact ⟨c, List.mem_range.mpr (by simpa [SIZE] using hc), by rw [hcell]; rfl⟩

theorem projT_tilesOfGrid (g : List (List (Option Tile)))
    (hg : g.length = 4 ∧ ∀ row ∈ g, row.length = 4) :
    projT (tilesOfGrid g) = valGridOf g := by
  apply grid_ext _ _ (wf_projT _) (shape_valGridOf _ hg)
  intro r c hr hc
  have hbase1 : (List.replicate 4 (List.replicate 4 (0 : Nat))).length = 4
      ∧ ∀ row ∈ List.replicate 4 (List.replicate 4 (0 : Nat)), row.length = 4 := by
    refine ⟨by simp, ?_⟩
    intro row hrow
    rw [List.eq_of_mem_replicate hrow]
    simp
  have h1 : getCell (projT (tilesOfGrid g)) r c
      = (match (tilesOfGrid g).reverse.find?
            (fun t => decide (t.row = r) && decide (t.col = c)) with
         | some t => t.value
         | none =>
            ((List.replicate 4 (List.replicate 4 (0 : Nat))).getD r []).getD c 0) :=
    foldl_place_getD Tile.value _ _ 0 hbase1 r c hr hc
  rw [getCell_valGridOf, h1]
  cases hfind : (tilesOfGrid g).reverse.find?
      (fun t => decide (t.row = r) && decide (t.col = c)) with
  | none =>
    rw [getD_zeroMat]
    cases hcell : getO g r c with
    | none => rfl
    | some t0 =>
      exfalso
      have hmem : ({ t0 with row := r, col := c } : Tile) ∈ tilesOfGrid g :=
        (mem_tilesOfGrid g _).mpr ⟨r, hr, c, hc, t0, hcell, rfl⟩
      have hno := List.find?_eq_none.mp hfind _ (List.mem_reverse.mpr hmem)
      simp at hno
  | some u =>
    have hu := List.find?_some hfind
    have hmem : u ∈ tilesOfGrid g :=
      List.mem_reverse.mp (List.mem_of_find?_eq_some hfind)
    obtain ⟨r2, hr2, c2, hc2, t0, hcell, rfl⟩ := (mem_tilesOfGrid g u).mp hmem
    simp only [Bool.and_eq_true, decide_eq_true_eq] at hu
    have hrr : r2 = r := hu.1
    have hcc : c2 = c := hu.2
    subst hrr
    subst hcc
    rw [hcell]
    rfl

end Sparse

theorem moveRight_grid (X : Grid) :
    (moveRight X).grid
      = X.map (fun row => ((slideAndMergeRow row.reverse).1).reverse) := by
  show ((X.map List.reverse).map (fun row => (slideAndMergeRow row).1)).map
      List.reverse = _
  rw [List.map_map, List.map_map]
  rfl

theorem moveRight_moved (X : Grid) :
    (moveRight X).moved
      = X.any (fun row => rowChangedB (slideAndMergeRow row.reverse).1 row.reverse) := by
  show (X.map List.reverse).any (fun row => rowChangedB (slideAndMergeRow row).1 row) = _
  rw [List.any_map]
  rfl

theorem moveDown_grid (X : Grid) :
    (moveDown X).grid
      = transpose ((transpose X).map
          (fun row => ((slideAndMergeRow row.reverse).1).reverse)) := by
  rw [show (moveDown X).grid = transpose (moveRight (transpose X)).grid from rfl,
    moveRight_grid]

theorem moveDown_moved (X : Grid) :
    (moveDown X).moved
      = (transpose X).any
          (fun row => rowChangedB (slideAndMergeRow row.reverse).1 row.reverse) := by
  rw [show (moveDown X).moved = (moveRight (transpose X)).moved from rfl,
    moveRight_moved]

/-- Claim C7: the sparse tile-list move is behaviorally identical to the
dense matrix model: for every well-formed tile list and each direction, the
value projection of the tile list produced by `moveTiles` equals the grid of
the corresponding dense move of the projected board, and the two `moved`
flags agree. -/
theorem claim7_refinement (tiles : List Sparse.Tile) (n : Nat) (d : Direction)
    (hwf : Sparse.wfTiles tiles) :
    Sparse.projT (Sparse.moveTiles tiles d n).tiles
        = (dmove d (Sparse.projT tiles)).grid
    ∧ (Sparse.moveTiles tiles d n).moved = (dmove d (Sparse.projT tiles)).moved := by
  have hshape := Sparse.shape_toOptGrid tiles
  have hvals := Sparse.toOptGrid_values tiles hwf
  have hshapeT := Sparse.shape_transposeO (Sparse.toOptGrid tiles)
  have hvalsT := Sparse.transposeO_values (Sparse.toOptGrid tiles) hvals
  cases d with
  | left =>
    obtain ⟨hg, hm, hlen4, _, hN⟩ :=
      Sparse.doRows_spec false (Sparse.toOptGrid tiles) n hshape.2 hvals
    constructor
    · show Sparse.projT
          (Sparse.tilesOfGrid (Sparse.doRows false (Sparse.toOptGrid tiles) n).1)
        = (moveLeft (Sparse.projT tiles)).grid
      rw [Sparse.projT_tilesOfGrid _ ⟨by rw [hN]; exact hshape.1, hlen4⟩, hg,
        Sparse.projT_eq_valGridOf]
      rfl
    · show (Sparse.doRows false (Sparse.toOptGrid tiles) n).2.2
        = (moveLeft (Sparse.projT tiles)).moved
      rw [hm, Sparse.projT_eq_valGridOf]
      rfl
  | right =>
    obtain ⟨hg, hm, hlen4, _, hN⟩ :=
      Sparse.doRows_spec true (Sparse.toOptGrid tiles) n hshape.2 hvals
    constructor
    · show Sparse.projT
          (Sparse.tilesOfGrid (Sparse.doRows true (Sparse.toOptGrid tiles) n).1)
        = (moveRight (Sparse.projT tiles)).grid
      rw [Sparse.projT_tilesOfGrid _ ⟨by rw [hN]; exact hshape.1, hlen4⟩, hg,
        Sparse.projT_eq_valGridOf, moveRight_grid]
      rfl
    · show (Sparse.doRows true (Sparse.toOptGrid tiles) n).2.2
        = (moveRight (Sparse.projT tiles)).moved
      rw [hm, Sparse.projT_eq_valGridOf, moveRight_moved]
      rfl
  | up =>
    obtain ⟨hg, hm, hlen4, _, hN⟩ :=
      Sparse.doRows_spec false (Sparse.transposeO (Sparse.toOptGrid tiles)) n
        hshapeT.2 hvalsT
    constructor
    · show Sparse.projT (Sparse.tilesOfGrid (Sparse.transposeO
          (Sparse.doRows false (Sparse.transposeO (Sparse.toOptGrid tiles)) n).1))
        = (moveUp (Sparse.projT tiles)).grid
      rw [Sparse.projT_tilesOfGrid _ (Sparse.shape_transposeO _),
        Sparse.valGridOf_transposeO, hg, Sparse.valGridOf_transposeO,
        Sparse.projT_eq_valGridOf]
      rfl
    · show (Sparse.doRows false (Sparse.transposeO (Sparse.toOptGrid tiles)) n).2.2
        = (moveUp (Sparse.projT tiles)).moved
      rw [hm, Sparse.valGridOf_transposeO, Sparse.projT_eq_valGridOf]
      rfl
  | down =>
    obtain ⟨hg, hm, hlen4, _, hN⟩ :=
      Sparse.doRows_spec true (Sparse.transposeO (Sparse.toOptGrid tiles)) n
        hshapeT.2 hvalsT
    constructor
    · show Sparse.projT (Sparse.tilesOfGrid (Sparse.transposeO
          (Sparse.doRows true (Sparse.transposeO (Sparse.toOptGrid tiles)) n).1))
        = (moveDown (Sparse.projT tiles)).grid
      rw [Sparse.projT_tilesOfGrid _ (Sparse.shape_transposeO _),
        Sparse.valGridOf_transposeO, hg, Sparse.valGridOf_transposeO,
        Sparse.projT_eq_valGridOf, moveDown_grid]
      rfl
    · show (Sparse.doRows true (Sparse.transposeO (Sparse.toOptGrid tiles)) n).2.2
        = (moveDown (Sparse.projT tiles)).moved
      rw [hm, Sparse.valGridOf_transposeO, Sparse.projT_eq_valGridOf,
        moveDown_moved]
      rfl

/-- Witness for claim C7 at a concrete tile list and direction. -/
theorem claim7_refinement_witness :
    Sparse.projT (Sparse.moveTiles
        [⟨1, 2, 0, 0⟩, ⟨2, 2, 0, 2⟩] Direction.left 3).tiles
      = (dmove Direction.left
          (Sparse.projT [⟨1, 2, 0, 0⟩, ⟨2, 2, 0, 2⟩])).grid
    ∧ (Sparse.moveTiles [⟨1, 2, 0, 0⟩, ⟨2, 2, 0, 2⟩] Direction.left 3).moved
      = (dmove Direction.left
          (Sparse.projT [⟨1, 2, 0, 0⟩, ⟨2, 2, 0, 2⟩])).moved :=
  claim7_refinement [⟨1, 2, 0, 0⟩, ⟨2, 2, 0, 2⟩] 3 Direction.left (by decide)

/-- Controller state of the dense variant (the React state of `App`,
source lines 114-119): grid, score, best score, history stack, game-over
flag. -/
structure GameState1 where
  grid : Grid
  score : Nat
  best : Nat
  history : List (Grid × Nat)
  gameOver : Bool
  deriving DecidableEq

/-- One key press of the dense variant: the `onKey` guard (source line 152)
followed by `applyMove` (source lines 125-144).  On an accepted move the new
grid gets a spawned tile, the score is increased by the gained score, the
best score is raised when exceeded, the previous grid and score are pushed
on the history (keeping the last 9 entries, `h.slice(-9)`), and the
game-over flag is recomputed from the spawned grid (the `useEffect` of
lines 146-148).  A move with `moved = false` returns the old state
untouched (`if (!moved) return oldGrid`), and no effect re-runs because the
grid reference is unchanged. -/
def onKey1 (s : GameState1) (d : Direction) (k : Nat) (four : Bool) : GameState1 :=
  if s.gameOver then s
  else
    let r := dmove d s.grid
    if r.moved then
      let withTile := addRandomTile r.grid k four
      let ns := s.score + r.score
      { grid := withTile
      , score := ns
      , best := if s.best < ns then ns else s.best
      , history := (s.history.drop (s.history.length - 9)) ++ [(s.grid, s.score)]
      , gameOver := !canMove withTile }
    else s

/-- Controller state of the sparse win-threshold variant (`App.tsx` lines
136-144), together with the module-global id counter `nextId`. -/
structure GameState2 where
  tiles : List Sparse.Tile
  nextId : Nat
  gameOver : Bool
  gameWin : Bool
  deriving DecidableEq

/-- One key press of the sparse variant (`App.tsx` lines 146-161): ignored
when the game is over or won; otherwise move, and if the board changed,
spawn a tile, recompute the game-over flag from `canMove`, and set the win
flag when some tile has reached 128. -/
def onKey2 (s : GameState2) (d : Direction) (k : Nat) (four : Bool) : GameState2 :=
  if s.gameOver || s.gameWin then s
  else
    let m := Sparse.moveTiles s.tiles d s.nextId
    if m.moved then
      let sp := Sparse.addRandomTile m.tiles m.nextId k four
      { tiles := sp.1
      , nextId := sp.2
      , gameOver := !Sparse.canMove sp.1
      , gameWin := sp.1.any fun t => decide (128 ≤ t.value) }
    else s

/-- `restart` of the sparse variant (`App.tsx` lines 163-170): two spawns on
an empty board, and both flags cleared. -/
def restart2 (n k1 k2 : Nat) (f1 f2 : Bool) : GameState2 :=
  let s1 := Sparse.addRandomTile [] n k1 f1
  let s2 := Sparse.addRandomTile s1.1 s1.2 k2 f2
  { tiles := s2.1, nextId := s2.2, gameOver := false, gameWin := false }

/-- Claim C6: in both variants, a directional input whose move reports
`moved = false` spawns no tile and leaves the whole game state unchanged. -/
theorem claim6_noop_move :
    (∀ (s : GameState1) (d : Direction) (k : Nat) (f : Bool),
      (dmove d s.grid).moved = false → onKey1 s d k f = s)
    ∧ (∀ (s : GameState2) (d : Direction) (k : Nat) (f : Bool),
      (Sparse.moveTiles s.tiles d s.nextId).moved = false → onKey2 s d k f = s) := by
  constructor
  · intro s d k f h
    unfold onKey1
    by_cases hg : s.gameOver
    · rw [if_pos hg]
    · rw [if_neg hg, if_neg (by rw [h]; simp)]
  · intro s d k f h
    unfold onKey2
    by_cases hg : (s.gameOver || s.gameWin) = true
    · rw [if_pos hg]
    · rw [if_neg hg, if_neg (by rw [h]; simp)]

/-- Witness for claim C6 at a concrete settled state. -/
theorem claim6_noop_move_witness :
    onKey1 ⟨[[2,4,2,4],[4,2,4,2],[2,4,2,4],[4,2,4,2]], 7, 9, [], false⟩
      Direction.left 0 false
    = ⟨[[2,4,2,4],[4,2,4,2],[2,4,2,4],[4,2,4,2]], 7, 9, [], false⟩ :=
  claim6_noop_move.1 ⟨[[2,4,2,4],[4,2,4,2],[2,4,2,4],[4,2,4,2]], 7, 9, [], false⟩
    Direction.left 0 false (by decide)

namespace Sparse

theorem mem_getEmptyCells (ts : List Tile) (r c : Nat) :
    (r, c) ∈ getEmptyCells ts
      ↔ r < 4 ∧ c < 4
        ∧ (ts.any fun t => decide (t.row = r) && decide (t.col = c)) = false := by
  constructor
  · intro h
    obtain ⟨l, hl, hmem⟩ := List.mem_flatten.mp h
    obtain ⟨r2, hr2, rfl⟩ := List.mem_map.mp hl
    obtain ⟨c2, hc2, heq⟩ := List.mem_filterMap.mp hmem
    by_cases hocc : (ts.any fun t => decide (t.row = r2) && decide (t.col = c2)) = true
    · rw [if_pos hocc] at heq
      exact absurd heq (by simp)
    · rw [if_neg hocc] at heq
      have hp : r2 = r ∧ c2 = c := by
        constructor <;> [exact congrArg Prod.fst (Option.some.inj heq);
          exact congrArg Prod.snd (Option.some.inj heq)]
      obtain ⟨rfl, rfl⟩ := hp
      exact ⟨by simpa [SIZE] using List.mem_range.mp hr2,
        by simpa [SIZE] using List.mem_range.mp hc2, by simpa using hocc⟩
  · rintro ⟨hr, hc, hocc⟩
    apply List.mem_flatten.mpr
    refine ⟨(List.range SIZE).filterMap fun c2 =>
      if ts.any fun t => decide (t.row = r) && decide (t.col = c2) then none
      else some (r, c2), ?_, ?_⟩
    · exact List.mem_map.mpr ⟨r, List.mem_range.mpr (by simpa [SIZE] using hr), rfl⟩
    · apply List.mem_filterMap.mpr
      exact ⟨c, List.mem_range.mpr (by simpa [SIZE] using hc),
        by rw [if_neg (by simp [hocc])]⟩

theorem getEmptyCells_single_ne_nil (t : Tile) : getEmptyCells [t] ≠ [] := by
  intro hnil
  by_cases ht : t.row = 0 ∧ t.col = 0
  · have hmem : ((0 : Nat), (1 : Nat)) ∈ getEmptyCells [t] :=
      (mem_getEmptyCells [t] 0 1).mpr ⟨by omega, by omega, by simp [ht.2]⟩
    rw [hnil] at hmem
    exact absurd hmem (by simp)
  · have hmem : ((0 : Nat), (0 : Nat)) ∈ getEmptyCells [t] :=
      (mem_getEmptyCells [t] 0 0).mpr ⟨by omega, by omega, by
        simp only [List.any_cons, List.any_nil, Bool.or_false,
          Bool.and_eq_false_iff, decide_eq_false_iff_not]
        tauto⟩
    rw [hnil] at hmem
    exact absurd hmem (by simp)

theorem addRandomTile_len (ts : List Tile) (n k : Nat) (f : Bool)
    (hne : getEmptyCells ts ≠ []) :
    (addRandomTile ts n k f).1.length = ts.length + 1
    ∧ ∃ t, (addRandomTile ts n k f).1 = ts ++ [t] := by
  unfold addRandomTile
  cases hE : getEmptyCells ts with
  | nil => exact absurd hE hne
  | cons e es =>
    exact ⟨by simp, ⟨_, rfl⟩⟩

end Sparse

/-- Claim C8: in the win-threshold variant, after an accepted move and the
following spawn, the win flag is set exactly when some tile has reached 128;
`Won` and `Lost` are terminal (inputs are ignored); and a restart yields a
fresh playing state with a newly spawned two-tile board. -/
theorem claim8_win_terminal :
    (∀ (s : GameState2) (d : Direction) (k : Nat) (f : Bool),
      s.gameOver = false → s.gameWin = false →
      (Sparse.moveTiles s.tiles d s.nextId).moved = true →
      (onKey2 s d k f).gameWin
        = (onKey2 s d k f).tiles.any fun t => decide (128 ≤ t.value))
    ∧ (∀ (s : GameState2) (d : Direction) (k : Nat) (f : Bool),
      s.gameOver = true ∨ s.gameWin = true → onKey2 s d k f = s)
    ∧ (∀ (n k1 k2 : Nat) (f1 f2 : Bool),
      (restart2 n k1 k2 f1 f2).tiles.length = 2
      ∧ (restart2 n k1 k2 f1 f2).gameOver = false
      ∧ (restart2 n k1 k2 f1 f2).gameWin = false) := by
  refine ⟨?_, ?_, ?_⟩
  · intro s d k f h1 h2 h3
    unfold onKey2
    rw [if_neg (by rw [h1, h2]; simp), if_pos h3]
  · intro s d k f h
    unfold onKey2
    rcases h with h | h
    · rw [if_pos (by rw [h]; simp)]
    · rw [if_pos (by rw [h]; simp)]
  · intro n k1 k2 f1 f2
    refine ⟨?_, rfl, rfl⟩
    show (Sparse.addRandomTile (Sparse.addRandomTile [] n k1 f1).1
        (Sparse.addRandomTile [] n k1 f1).2 k2 f2).1.length = 2
    obtain ⟨hlen1, t1, ht1⟩ := Sparse.addRandomTile_len [] n k1 f1 (by decide)
    rw [ht1]
    simp only [List.nil_append]
    obtain ⟨hlen2, t2, ht2⟩ := Sparse.addRandomTile_len [t1]
      (Sparse.addRandomTile [] n k1 f1).2 k2 f2
      (Sparse.getEmptyCells_single_ne_nil t1)
    rw [hlen2]
    rfl

/-- Witness for claim C8 at a concrete winning move: two 64 tiles merge into
128, the spawn happens, and the win flag rises; then further input is
ignored. -/
theorem claim8_win_terminal_witness :
    ((onKey2 ⟨[⟨1, 64, 0, 0⟩, ⟨2, 64, 0, 1⟩], 3, false, false⟩
        Direction.left 0 false).gameWin
      = (onKey2 ⟨[⟨1, 64, 0, 0⟩, ⟨2, 64, 0, 1⟩], 3, false, false⟩
          Direction.left 0 false).tiles.any fun t => decide (128 ≤ t.value))
    ∧ onKey2 ⟨[⟨1, 128, 0, 0⟩], 2, false, true⟩ Direction.left 0 false
      = ⟨[⟨1, 128, 0, 0⟩], 2, false, true⟩
    ∧ (restart2 5 0 1 false false).tiles.length = 2 :=
  ⟨claim8_win_terminal.1 ⟨[⟨1, 64, 0, 0⟩, ⟨2, 64, 0, 1⟩], 3, false, false⟩
      Direction.left 0 false (by decide) (by decide) (by decide),
    (claim8_win_terminal.2.1 ⟨[⟨1, 128, 0, 0⟩], 2, false, true⟩
      Direction.left 0 false (Or.inr (by decide))),
    (claim8_win_terminal.2.2 5 0 1 false false).1⟩

/-- Decimal digit value of a character, `none` for a non-digit. -/
def charDigit (ch : Char) : Option Nat :=
  if ch.toNat < 48 ∨ 57 < ch.toNat then none else some (ch.toNat - 48)

def parseDecAux : List Char → Nat → Option Nat
  | [], acc => some acc
  | ch :: rest, acc =>
    match charDigit ch with
    | some d2 => parseDecAux rest (acc * 10 + d2)
    | none => none

/-- Modelled JS `Number` on the string forms this app can persist: the empty
string is 0, a nonempty string of decimal digits is its value, and anything
else is NaN, represented as `none`.  (Signs, floats, hex and whitespace
forms of `Number` never occur for the best-score key, which the app only
ever writes as a decimal natural, and are not modelled.) -/
def jsNumber (cs : List Char) : Option Nat :=
  match cs with
  | [] => some 0
  | _ => parseDecAux cs 0

/-- The best-score read at startup (source line 117):
`Number(localStorage.getItem("best2048") || 0)`.  An absent key yields
`null`, which is falsy, so `Number(0) = 0`; an empty stored string is falsy
too; any other stored string goes through `Number`, so non-numeric content
yields NaN (`none`) rather than 0. -/
def readBest (stored : Option (List Char)) : Option Nat :=
  match stored with
  | none => some 0
  | some cs => if cs = [] then some 0 else jsNumber cs

/-- Claim C9 identifies a code bug: a non-numeric persisted best score such
as the three characters abc makes the read produce NaN, not the required 0;
an absent or empty value does give 0, and numeric content parses. -/
theorem claim9_code_bug_eval :
    readBest (some ['a', 'b', 'c']) = none
    ∧ readBest none = some 0
    ∧ readBest (some []) = some 0
    ∧ readBest (some ['4', '2']) = some 42 := by
  refine ⟨?_, rfl, rfl, ?_⟩ <;> rfl
